import Mathlib

/-!
Verification development for the TACA Illumina demultiplexing core
(`taca/illumina/Standard_Runs.py` and `taca/illumina/Runs.py`).

Strings from the Python code are modelled as `List Char`; Python `dict`s
are modelled as association lists in insertion order; functions that can
raise exceptions are modelled in `Except String`.
-/

namespace TACA

abbrev PyStr := List Char

/-- Python `str.upper` restricted to ASCII (all strings handled by the
classifier are ASCII). -/
def pyUpper (s : PyStr) : PyStr := s.map Char.toUpper

/-- Python `len(s)`. -/
def pyLen (s : PyStr) : Nat := s.length

/-! ### Module-level regex constants of `Standard_Runs.py`

`PAT.findall(s)` is nonempty iff `s` contains a substring matching the
pattern; each pattern below is compiled to an executable "matches at the
head of the list" predicate, and `scanAny` tries every start position. -/

/-- `p` matches at some start position of `cs` (Python `re.findall ≠ []`
for an unanchored pattern). -/
def scanAny (p : List Char → Bool) : List Char → Bool
  | [] => p []
  | c :: cs => p (c :: cs) || scanAny p cs

def digit19 (c : Char) : Bool := '1' ≤ c && c ≤ '9'

def digit09 (c : Char) : Bool := '0' ≤ c && c ≤ '9'

/-- `TENX_SINGLE_PAT = re.compile("SI-(?:GA|NA)-[A-H][1-9][0-2]?")`:
a match starts here iff the mandatory part `SI-(GA|NA)-[A-H][1-9]`
starts here (the optional `[0-2]?` never affects match existence). -/
def tenxSingleAt : List Char → Bool
  | 'S' :: 'I' :: '-' :: g :: 'A' :: '-' :: c :: d :: _ =>
      (g = 'G' || g = 'N') && ('A' ≤ c && c ≤ 'H') && digit19 d
  | _ => false

/-- `TENX_DUAL_PAT = re.compile("SI-(?:TT|NT|NN|TN|TS)-[A-H][1-9][0-2]?")`. -/
def tenxDualAt : List Char → Bool
  | 'S' :: 'I' :: '-' :: x :: y :: '-' :: c :: d :: _ =>
      ((x = 'T' && y = 'T') || (x = 'N' && y = 'T') || (x = 'N' && y = 'N') ||
        (x = 'T' && y = 'N') || (x = 'T' && y = 'S')) &&
      ('A' ≤ c && c ≤ 'H') && digit19 d
  | _ => false

/-- Tail of `SMARTSEQ_PAT` after the `-`: `[1-9][0-9]?[A-P]`. -/
def smartseqAfterDash : List Char → Bool
  | d1 :: rest =>
      digit19 d1 &&
        (match rest with
         | d2 :: l :: _ => (digit09 d2 && ('A' ≤ l && l ≤ 'P')) || ('A' ≤ d2 && d2 ≤ 'P')
         | [l] => 'A' ≤ l && l ≤ 'P'
         | [] => false)
  | [] => false

def smartseqDashThen : List Char → Bool
  | '-' :: t => smartseqAfterDash t
  | _ => false

/-- `SMARTSEQ_PAT = re.compile("SMARTSEQ[1-9]?-[1-9][0-9]?[A-P]")`. -/
def smartseqAt : List Char → Bool
  | 'S' :: 'M' :: 'A' :: 'R' :: 'T' :: 'S' :: 'E' :: 'Q' :: rest =>
      (match rest with
       | c :: rest' => (digit19 c && smartseqDashThen rest') || smartseqDashThen (c :: rest')
       | [] => false)
  | _ => false

def isACGT (c : Char) : Bool := c = 'A' || c = 'T' || c = 'C' || c = 'G'

/-- `IDT_UMI_PAT = re.compile("([ATCG]{4,}N+$)")`: `findall` is nonempty
iff the string ends in a run of at least one `N` immediately preceded by
at least four `[ATCG]` characters (`N` is not in `[ATCG]`, so the two
blocks are adjacent). -/
def idtUmiHit (cs : List Char) : Bool :=
  let r := cs.reverse
  let ns := r.takeWhile (fun c => c = 'N')
  let rest := r.dropWhile (fun c => c = 'N')
  decide (1 ≤ ns.length) && decide ((rest.take 4).length = 4) && (rest.take 4).all isACGT

/-! ### `Standard_Run._classify_samples` -/

/-- The `sample_type` strings assigned by `_classify_samples`. -/
inductive SampleType
  | ordinary          -- "ordinary"
  | shortSingleIndex  -- "short_single_index"
  | tenxSingle        -- "10X_SINGLE"
  | tenxDual          -- "10X_DUAL"
  | smartseq          -- "SMARTSEQ"
  | idtUmi            -- "IDT_UMI"
  | noindex           -- "NOINDEX"
  deriving DecidableEq, Repr

/-- The per-sample record stored in `sample_table`. -/
structure Classification where
  sampleType : SampleType
  indexLength : Nat × Nat
  umiLength : Nat × Nat
  deriving DecidableEq, Repr

/-- Python dict lookup on an insertion-ordered association list. -/
def dictGet (d : List (PyStr × α)) (k : PyStr) : Option α :=
  (d.find? (fun p => p.1 == k)).map (·.2)

/-- Python `s.split("-")`. -/
def splitOnDash (s : PyStr) : List PyStr :=
  s.splitOn '-'

/-- `index_dict_tenX[name][i]` (raises on a missing key or a too-short
entry, like the Python indexing). -/
def tenxLookup (d : List (PyStr × List PyStr)) (k : PyStr) (i : Nat) : Except String PyStr :=
  match dictGet d k with
  | none => .error "KeyError"
  | some seqs =>
    match seqs[i]? with
    | none => .error "IndexError"
    | some s => .ok s

/-- One row of the sample sheet as far as `_classify_samples` reads it. -/
structure SampleRow where
  lane : PyStr
  name : PyStr
  index : PyStr
  index2 : PyStr
  deriving Repr

/-- The classification branch of `_classify_samples`
(`Standard_Runs.py` lines 149–199): the `if/elif` chain deciding
`sample_type`, `index_length` and `umi_length` for one sample row.
`indexCycles` is the pair of index-read cycle counts from `RunInfo`. -/
def classifyRow (tenxDict : List (PyStr × List PyStr))
    (smartseqDict : List (PyStr × List (PyStr × PyStr)))
    (indexCycles : Nat × Nat) (index index2 : PyStr) : Except String Classification :=
  if scanAny tenxSingleAt index then
    match tenxLookup tenxDict index 0 with
    | .error e => .error e
    | .ok s0 => .ok ⟨.tenxSingle, (pyLen s0, 0), (0, 0)⟩
  else if scanAny tenxDualAt index then
    match tenxLookup tenxDict index 0 with
    | .error e => .error e
    | .ok s0 =>
      match tenxLookup tenxDict index 1 with
      | .error e => .error e
      | .ok s1 => .ok ⟨.tenxDual, (pyLen s0, pyLen s1), (0, 0)⟩
  else if idtUmiHit index || idtUmiHit index2 then
    .ok ⟨.idtUmi,
      (pyLen (index.filter (fun c => !(c = 'N'))), pyLen (index2.filter (fun c => !(c = 'N')))),
      ((pyUpper index).count 'N', (pyUpper index2).count 'N')⟩
  else if scanAny smartseqAt index then
    match (splitOnDash index)[1]? with
    | none => .error "IndexError"
    | some key =>
      match dictGet smartseqDict key with
      | none => .error "KeyError"
      | some pairs =>
        match pairs[0]? with
        | none => .error "IndexError"
        | some p => .ok ⟨.smartseq, (pyLen p.1, pyLen p.2), (0, 0)⟩
  else if pyUpper index == "NOINDEX".data && !(indexCycles == (0, 0)) then
    .ok ⟨.noindex, indexCycles, (0, 0)⟩
  else if pyUpper index == "NOINDEX".data && indexCycles == (0, 0) then
    .ok ⟨.ordinary, (0, 0), (0, 0)⟩
  else
    let il : Nat × Nat := (pyLen index, pyLen index2)
    if (il.1 ≤ 8 && il.2 == 0) || (il.1 == 0 && il.2 ≤ 8) then
      .ok ⟨.shortSingleIndex, il, (0, 0)⟩
    else
      .ok ⟨.ordinary, il, (0, 0)⟩

/-! ### Spec-side restatement of the §4.2 precedence rules (for C4)

`specGuard` and `specRuleType` follow the spec's words — seven rules,
first match wins — to be compared with `classifyRow`, which follows the
source's `if/elif` chain. -/

/-- Guard of spec rule `j` (rules 1–7 of the claim, here 0-based). -/
def specGuard (indexCycles : Nat × Nat) (index index2 : PyStr) : Nat → Bool
  | 0 => scanAny tenxSingleAt index
  | 1 => scanAny tenxDualAt index
  | 2 => idtUmiHit index || idtUmiHit index2
  | 3 => scanAny smartseqAt index
  | 4 => pyUpper index == "NOINDEX".data && !(indexCycles == (0, 0))
  | 5 => pyUpper index == "NOINDEX".data && indexCycles == (0, 0)
  | _ => true

/-- Sample type assigned by spec rule `j`. -/
def specRuleType (index index2 : PyStr) : Nat → SampleType
  | 0 => .tenxSingle
  | 1 => .tenxDual
  | 2 => .idtUmi
  | 3 => .smartseq
  | 4 => .noindex
  | 5 => .ordinary
  | _ =>
    if (pyLen index ≤ 8 && pyLen index2 == 0) || (pyLen index == 0 && pyLen index2 ≤ 8)
    then .shortSingleIndex else .ordinary

/-- Index of the first spec rule whose guard matches. -/
def firstMatchingRule (indexCycles : Nat × Nat) (index index2 : PyStr) : Nat :=
  if specGuard indexCycles index index2 0 then 0
  else if specGuard indexCycles index index2 1 then 1
  else if specGuard indexCycles index index2 2 then 2
  else if specGuard indexCycles index index2 3 then 3
  else if specGuard indexCycles index index2 4 then 4
  else if specGuard indexCycles index index2 5 then 5
  else 6

/-! ### `Run._classify_lanes` (`Runs.py` lines 452–510) -/

/-- One row of a samplesheet as `_classify_lanes` reads it
(absent `index`/`index2` fields are the empty string). -/
structure SheetEntry where
  lane : PyStr
  index : PyStr
  index2 : PyStr
  deriving DecidableEq, Repr

/-- The `noindex_lanes` list: lanes of rows whose `index` upper-cases to
`NOINDEX` or whose `index` and `index2` are both empty. -/
def noindexLanes (data : List SheetEntry) : List PyStr :=
  (data.filter fun e =>
    pyUpper e.index == "NOINDEX".data || (e.index == [] && e.index2 == [])).map (·.lane)

/-- One sub-demultiplexing samplesheet (`SampleSheet_<id>.csv`). -/
structure SubSheet where
  demuxId : PyStr
  rows : List SheetEntry
  deriving Repr

/-- Insert one samplesheet row into `lane_demuxid_indexlength`
(first row wins for a given (lane, demux_id) pair). -/
def addLaneDemux (did : PyStr) (r : SheetEntry) :
    List (PyStr × List (PyStr × (Nat × Nat))) → List (PyStr × List (PyStr × (Nat × Nat)))
  | [] => [(r.lane, [(did, (pyLen r.index, pyLen r.index2))])]
  | (l, ds) :: rest =>
    if l == r.lane then
      if (ds.find? fun p => p.1 == did).isSome then (l, ds) :: rest
      else (l, ds ++ [(did, (pyLen r.index, pyLen r.index2))]) :: rest
    else (l, ds) :: addLaneDemux did r rest

/-- The `lane_demuxid_indexlength` dict built over all sub-samplesheets. -/
def laneDemuxIndexLengths (sheets : List SubSheet) : List (PyStr × List (PyStr × (Nat × Nat))) :=
  sheets.foldl (fun acc sheet => sheet.rows.foldl (fun a r => addLaneDemux sheet.demuxId r a) acc) []

/-- `0 in vv` for the two index lengths of a sub-demultiplexing. -/
def hasZero (v : Nat × Nat) : Bool := v.1 == 0 || v.2 == 0

/-- One replacement step of the `_classify_lanes` priority loop
(`Runs.py` lines 492–508): the candidate `v` replaces the current holder
`cur` when `cur` has a zero index length and `v` has none, or when both
are in the same zero/no-zero category and `v` has the strictly larger
index-length sum. -/
def prioStep (cur v : PyStr × (Nat × Nat)) : PyStr × (Nat × Nat) :=
  if hasZero cur.2 && !hasZero v.2 then v
  else if ((hasZero cur.2 && hasZero v.2) || (!hasZero cur.2 && !hasZero v.2)) &&
      decide (cur.2.1 + cur.2.2 < v.2.1 + v.2.2) then v
  else cur

/-- The "Dual and longer indexes have higher priority" selection of
`_classify_lanes` over the demux entries of one lane. -/
def pickPriority : List (PyStr × (Nat × Nat)) → Option (PyStr × (Nat × Nat))
  | [] => none
  | e :: rest => some (rest.foldl prioStep e)

/-- `simple_lanes`: lanes covered by exactly one sub-demultiplexing,
mapped to that demux id. -/
def simpleLanes (ldi : List (PyStr × List (PyStr × (Nat × Nat)))) : List (PyStr × PyStr) :=
  ldi.filterMap fun p =>
    match p.2 with
    | [d] => some (p.1, d.1)
    | _ => none

/-- `complex_lanes`: lanes covered by two or more sub-demultiplexings,
mapped to the priority demux entry chosen by `pickPriority`. -/
def complexLanes (ldi : List (PyStr × List (PyStr × (Nat × Nat)))) :
    List (PyStr × (PyStr × (Nat × Nat))) :=
  ldi.filterMap fun p =>
    if 2 ≤ p.2.length then (pickPriority p.2).map fun e => (p.1, e) else none

/-- Priority preorder on index-length pairs implied by the source's
comments and replacement rule: "no zero" (dual) beats "has zero", and
within one category a larger length sum ranks higher. -/
def rankLE (a b : Nat × Nat) : Prop :=
  (hasZero a = true ∧ hasZero b = false) ∨
    (hasZero a = hasZero b ∧ a.1 + a.2 ≤ b.1 + b.2)

/-- C4: `_classify_samples` assigns `sample_type` by the first matching
rule of the spec's fixed order: 10X single, 10X dual, IDT UMI (either
index side), Smart-seq, NOINDEX with sequenced index cycles (taking
`index_length = index_cycles`), NOINDEX without index cycles (ordinary,
`index_length = (0,0)`), otherwise short-single-index / ordinary. -/
theorem classify_precedence (td : List (PyStr × List PyStr))
    (sd : List (PyStr × List (PyStr × PyStr))) (ic : Nat × Nat) (i1 i2 : PyStr)
    (c : Classification) (h : classifyRow td sd ic i1 i2 = .ok c) :
    c.sampleType = specRuleType i1 i2 (firstMatchingRule ic i1 i2) ∧
    specGuard ic i1 i2 (firstMatchingRule ic i1 i2) = true ∧
    (∀ j, j < firstMatchingRule ic i1 i2 → specGuard ic i1 i2 j = false) ∧
    (firstMatchingRule ic i1 i2 = 4 → c.indexLength = ic) ∧
    (firstMatchingRule ic i1 i2 = 5 → c.indexLength = (0, 0)) := by
  unfold classifyRow at h
  unfold firstMatchingRule
  by_cases h0 : scanAny tenxSingleAt i1 = true
  · rw [if_pos h0] at h
    rw [if_pos (show specGuard ic i1 i2 0 = true from h0)]
    split at h
    · cases h
    · injection h with h
      subst h
      refine ⟨rfl, h0, ?_, ?_, ?_⟩ <;> simp
  · rw [if_neg h0] at h
    rw [if_neg (show ¬specGuard ic i1 i2 0 = true from h0)]
    by_cases h1 : scanAny tenxDualAt i1 = true
    · rw [if_pos h1] at h
      rw [if_pos (show specGuard ic i1 i2 1 = true from h1)]
      split at h
      · cases h
      · split at h
        · cases h
        · injection h with h
          subst h
          refine ⟨rfl, h1, ?_, ?_, ?_⟩ <;> simp [specGuard, h0]
    · rw [if_neg h1] at h
      rw [if_neg (show ¬specGuard ic i1 i2 1 = true from h1)]
      by_cases h2 : (idtUmiHit i1 || idtUmiHit i2) = true
      · rw [if_pos h2] at h
        rw [if_pos (show specGuard ic i1 i2 2 = true from h2)]
        injection h with h
        subst h
        refine ⟨rfl, h2, ?_, ?_, ?_⟩ <;> [skip; simp; simp]
        intro j hj
        interval_cases j <;> simp_all [specGuard]
      · rw [if_neg h2] at h
        rw [if_neg (show ¬specGuard ic i1 i2 2 = true from h2)]
        by_cases h3 : scanAny smartseqAt i1 = true
        · rw [if_pos h3] at h
          rw [if_pos (show specGuard ic i1 i2 3 = true from h3)]
          split at h
          · cases h
          · split at h
            · cases h
            · split at h
              · cases h
              · injection h with h
                subst h
                refine ⟨rfl, h3, ?_, ?_, ?_⟩ <;> [skip; simp; simp]
                intro j hj
                interval_cases j <;> simp_all [specGuard]
        · rw [if_neg h3] at h
          rw [if_neg (show ¬specGuard ic i1 i2 3 = true from h3)]
          by_cases h4 : (pyUpper i1 == "NOINDEX".data && !(ic == (0, 0))) = true
          · rw [if_pos h4] at h
            rw [if_pos (show specGuard ic i1 i2 4 = true from h4)]
            injection h with h
            subst h
            refine ⟨rfl, h4, ?_, ?_, ?_⟩ <;> [skip; simp; simp]
            intro j hj
            interval_cases j <;> simp_all [specGuard]
          · rw [if_neg h4] at h
            rw [if_neg (show ¬specGuard ic i1 i2 4 = true from h4)]
            by_cases h5 : (pyUpper i1 == "NOINDEX".data && ic == (0, 0)) = true
            · rw [if_pos h5] at h
              rw [if_pos (show specGuard ic i1 i2 5 = true from h5)]
              injection h with h
              subst h
              refine ⟨rfl, h5, ?_, ?_, ?_⟩ <;> [skip; simp; simp]
              intro j hj
              interval_cases j <;> simp_all [specGuard]
            · rw [if_neg h5] at h
              rw [if_neg (show ¬specGuard ic i1 i2 5 = true from h5)]
              refine ⟨?_, rfl, ?_, by simp, by simp⟩
              · dsimp only at h
                have hgoal : specRuleType i1 i2 6 =
                    if ((pyLen i1 ≤ 8 && pyLen i2 == 0) || (pyLen i1 == 0 && pyLen i2 ≤ 8)) = true
                    then SampleType.shortSingleIndex else SampleType.ordinary := rfl
                by_cases h6 :
                    ((pyLen i1 ≤ 8 && pyLen i2 == 0) || (pyLen i1 == 0 && pyLen i2 ≤ 8)) = true
                · rw [if_pos h6] at h
                  injection h with h
                  subst h
                  rw [hgoal, if_pos h6]
                · rw [if_neg h6] at h
                  injection h with h
                  subst h
                  rw [hgoal, if_neg h6]
              · intro j hj
                interval_cases j <;> simp_all [specGuard]

/-- Witness for `classify_precedence` at an ordinary dual-index 8+8 sample. -/
theorem classify_precedence_witness :
    (Classification.mk .ordinary (8, 8) (0, 0)).sampleType =
      specRuleType "ATCGATCG".data "CCGGTTAA".data
        (firstMatchingRule (8, 8) "ATCGATCG".data "CCGGTTAA".data) ∧
    specGuard (8, 8) "ATCGATCG".data "CCGGTTAA".data
      (firstMatchingRule (8, 8) "ATCGATCG".data "CCGGTTAA".data) = true ∧
    (∀ j, j < firstMatchingRule (8, 8) "ATCGATCG".data "CCGGTTAA".data →
      specGuard (8, 8) "ATCGATCG".data "CCGGTTAA".data j = false) ∧
    (firstMatchingRule (8, 8) "ATCGATCG".data "CCGGTTAA".data = 4 →
      (Classification.mk .ordinary (8, 8) (0, 0)).indexLength = (8, 8)) ∧
    (firstMatchingRule (8, 8) "ATCGATCG".data "CCGGTTAA".data = 5 →
      (Classification.mk .ordinary (8, 8) (0, 0)).indexLength = (0, 0)) :=
  classify_precedence [] [] (8, 8) "ATCGATCG".data "CCGGTTAA".data
    ⟨.ordinary, (8, 8), (0, 0)⟩ rfl

/-- If `classifyRow` returns an `IDT_UMI` classification, its lengths are
the N-stripped length and the N-count of the upper-cased string
(`Standard_Runs.py` lines 160–173). -/
theorem classifyRow_idtUmi_shape (td : List (PyStr × List PyStr))
    (sd : List (PyStr × List (PyStr × PyStr))) (ic : Nat × Nat) (i1 i2 : PyStr)
    (c : Classification) (h : classifyRow td sd ic i1 i2 = .ok c)
    (ht : c.sampleType = SampleType.idtUmi) :
    c = ⟨.idtUmi,
      (pyLen (i1.filter fun ch => !(ch = 'N')), pyLen (i2.filter fun ch => !(ch = 'N'))),
      ((pyUpper i1).count 'N', (pyUpper i2).count 'N')⟩ := by
  unfold classifyRow at h
  dsimp only at h
  repeat' split at h
  all_goals first
    | (injection h with h; subst h;
        first
          | rfl
          | exact SampleType.noConfusion ht)
    | (injection h)

/-- `len(s.replace("N","")) + s.upper().count("N") = len(s)` for strings
in which only `N` itself upper-cases to `N` (no lowercase `n`). -/
theorem length_filter_add_count (s : PyStr)
    (hs : ∀ ch ∈ s, ch.toUpper = 'N' → ch = 'N') :
    pyLen (s.filter fun ch => !(ch = 'N')) + (pyUpper s).count 'N' = pyLen s := by
  induction s with
  | nil => rfl
  | cons a t ih =>
    have ht : ∀ ch ∈ t, ch.toUpper = 'N' → ch = 'N' :=
      fun ch hc => hs ch (List.mem_cons_of_mem _ hc)
    have ihr := ih ht
    by_cases ha : a = 'N'
    · subst ha
      have h1 : pyLen (('N' :: t).filter fun ch => !(ch = 'N')) =
          pyLen (t.filter fun ch => !(ch = 'N')) := by
        simp [pyLen]
      have h2 : (pyUpper ('N' :: t)).count 'N' = (pyUpper t).count 'N' + 1 := by
        simp [pyUpper, List.count_cons, show Char.toUpper 'N' = 'N' from by decide]
      rw [h1, h2]
      simp only [pyLen, List.length_cons]
      simp only [pyLen] at ihr
      omega
    · have hu : ¬ a.toUpper = 'N' := fun hu => ha (hs a (List.mem_cons_self a t) hu)
      have h1 : pyLen ((a :: t).filter fun ch => !(ch = 'N')) =
          pyLen (t.filter fun ch => !(ch = 'N')) + 1 := by
        simp [pyLen, List.filter_cons, ha]
      have h2 : (pyUpper (a :: t)).count 'N' = (pyUpper t).count 'N' := by
        simp [pyUpper, List.count_cons, hu]
      rw [h1, h2]
      simp only [pyLen, List.length_cons]
      simp only [pyLen] at ihr
      omega

/-- C6 (amended): for every `IDT_UMI` sample whose index strings contain
no lowercase `n`, `index_length[i] + umi_length[i]` equals the length of
the original index string on each side independently. -/
theorem idtUmi_length_sum (td : List (PyStr × List PyStr))
    (sd : List (PyStr × List (PyStr × PyStr))) (ic : Nat × Nat) (i1 i2 : PyStr)
    (c : Classification) (h : classifyRow td sd ic i1 i2 = .ok c)
    (ht : c.sampleType = SampleType.idtUmi)
    (h1 : ∀ ch ∈ i1, ch.toUpper = 'N' → ch = 'N')
    (h2 : ∀ ch ∈ i2, ch.toUpper = 'N' → ch = 'N') :
    c.indexLength.1 + c.umiLength.1 = pyLen i1 ∧
    c.indexLength.2 + c.umiLength.2 = pyLen i2 := by
  have hc := classifyRow_idtUmi_shape td sd ic i1 i2 c h ht
  subst hc
  exact ⟨length_filter_add_count i1 h1, length_filter_add_count i2 h2⟩

/-- Witness for `idtUmi_length_sum`: `index = "ATCGNN"`, `index2 = ""`. -/
theorem idtUmi_length_sum_witness :
    (Classification.mk .idtUmi (4, 0) (2, 0)).indexLength.1 +
        (Classification.mk .idtUmi (4, 0) (2, 0)).umiLength.1 = pyLen "ATCGNN".data ∧
    (Classification.mk .idtUmi (4, 0) (2, 0)).indexLength.2 +
        (Classification.mk .idtUmi (4, 0) (2, 0)).umiLength.2 = pyLen "".data :=
  idtUmi_length_sum [] [] (8, 8) "ATCGNN".data "".data ⟨.idtUmi, (4, 0), (2, 0)⟩
    rfl rfl (by decide) (by decide)

/-- C6 fails as literally stated: a sample with `index2 = "ATCGn"` is
classified `IDT_UMI` (via `index`), but on side 2 the code counts the
lowercase `n` for `umi_length` while not removing it for `index_length`,
so the sum exceeds the original length. -/
theorem idtUmi_length_sum_counterexample :
    ∃ c, classifyRow [] [] (8, 8) "ATCGNN".data "ATCGn".data = .ok c ∧
      c.sampleType = SampleType.idtUmi ∧
      c.indexLength.2 + c.umiLength.2 ≠ pyLen "ATCGn".data :=
  ⟨⟨.idtUmi, (4, 5), (2, 1)⟩, rfl, rfl, by decide⟩

/-- C10: `_classify_lanes` puts a lane in `noindex_lanes` iff some row of
that lane has `index` upper-casing to `NOINDEX` or has both index fields
empty; and `_classify_samples` classifies a both-empty-index sample as
`short_single_index` with `index_length (0,0)`, for any index cycles. -/
theorem noindex_lane_iff (data : List SheetEntry) (lane : PyStr) :
    (lane ∈ noindexLanes data ↔ ∃ e ∈ data, e.lane = lane ∧
      (pyUpper e.index = "NOINDEX".data ∨ (e.index = [] ∧ e.index2 = []))) ∧
    (∀ (td : List (PyStr × List PyStr)) (sd : List (PyStr × List (PyStr × PyStr)))
      (ic : Nat × Nat),
      classifyRow td sd ic [] [] = .ok ⟨.shortSingleIndex, (0, 0), (0, 0)⟩) := by
  constructor
  · simp only [noindexLanes, List.mem_map, List.mem_filter]
    constructor
    · rintro ⟨e, ⟨he, hcond⟩, hl⟩
      refine ⟨e, he, hl, ?_⟩
      simpa using hcond
    · rintro ⟨e, he, hl, hcond⟩
      exact ⟨e, ⟨he, by simpa using hcond⟩, hl⟩
  · intro td sd ic
    rfl

theorem rankLE_refl (a : Nat × Nat) : rankLE a a := Or.inr ⟨rfl, le_refl _⟩

theorem rankLE_trans {a b c : Nat × Nat} (h1 : rankLE a b) (h2 : rankLE b c) :
    rankLE a c := by
  rcases h1 with ⟨ha, hb⟩ | ⟨he, hs⟩ <;> rcases h2 with ⟨hb', hc⟩ | ⟨he', hs'⟩
  · rw [hb] at hb'; cases hb'
  · exact Or.inl ⟨ha, he' ▸ hb⟩
  · exact Or.inl ⟨he ▸ hb', hc⟩
  · exact Or.inr ⟨he.trans he', le_trans hs hs'⟩

theorem prioStep_eq_or (cur v : PyStr × (Nat × Nat)) :
    prioStep cur v = cur ∨ prioStep cur v = v := by
  unfold prioStep
  split
  · exact Or.inr rfl
  · split
    · exact Or.inr rfl
    · exact Or.inl rfl

theorem rankLE_prioStep_left (cur v : PyStr × (Nat × Nat)) :
    rankLE cur.2 (prioStep cur v).2 := by
  unfold prioStep
  split
  · rename_i hcond
    simp only [Bool.and_eq_true, Bool.not_eq_true'] at hcond
    exact Or.inl ⟨hcond.1, hcond.2⟩
  · split
    · rename_i hcond2
      simp only [Bool.and_eq_true, Bool.or_eq_true, Bool.not_eq_true',
        decide_eq_true_eq] at hcond2
      rcases hcond2 with ⟨⟨h1, h2⟩ | ⟨h1, h2⟩, hlt⟩
      · exact Or.inr ⟨h1.trans h2.symm, le_of_lt hlt⟩
      · exact Or.inr ⟨h1.trans h2.symm, le_of_lt hlt⟩
    · exact rankLE_refl _

theorem rankLE_prioStep_right (cur v : PyStr × (Nat × Nat)) :
    rankLE v.2 (prioStep cur v).2 := by
  unfold prioStep
  split
  · exact rankLE_refl _
  · split
    · exact rankLE_refl _
    · rename_i hc1 hc2
      by_cases hzv : hasZero v.2 = true
      · by_cases hzc : hasZero cur.2 = true
        · refine Or.inr ⟨hzv.trans hzc.symm, ?_⟩
          have hlt : ¬ (cur.2.1 + cur.2.2 < v.2.1 + v.2.2) := fun hlt =>
            hc2 (by simp [hzc, hzv, hlt])
          omega
        · exact Or.inl ⟨hzv, Bool.not_eq_true _ ▸ Bool.of_not_eq_true hzc⟩
      · by_cases hzc : hasZero cur.2 = true
        · exact absurd (by simp [hzc, Bool.of_not_eq_true hzv]) hc1
        · refine Or.inr ⟨(Bool.of_not_eq_true hzv).trans (Bool.of_not_eq_true hzc).symm, ?_⟩
          have hlt : ¬ (cur.2.1 + cur.2.2 < v.2.1 + v.2.2) := fun hlt =>
            hc2 (by simp [Bool.of_not_eq_true hzv, Bool.of_not_eq_true hzc, hlt])
          omega

theorem priorityFold_spec (rest : List (PyStr × (Nat × Nat))) :
    ∀ init, (rest.foldl prioStep init = init ∨ rest.foldl prioStep init ∈ rest) ∧
      rankLE init.2 (rest.foldl prioStep init).2 ∧
      ∀ v ∈ rest, rankLE v.2 (rest.foldl prioStep init).2 := by
  induction rest with
  | nil => exact fun init => ⟨Or.inl rfl, rankLE_refl _, by simp⟩
  | cons a l ih =>
    intro init
    simp only [List.foldl_cons]
    obtain ⟨hmem, hinit, hall⟩ := ih (prioStep init a)
    refine ⟨?_, ?_, ?_⟩
    · rcases hmem with he | hm
      · rcases prioStep_eq_or init a with h | h
        · exact Or.inl (he.trans h)
        · exact Or.inr (by rw [he, h]; exact List.mem_cons_self a l)
      · exact Or.inr (List.mem_cons_of_mem _ hm)
    · exact rankLE_trans (rankLE_prioStep_left init a) hinit
    · intro v hv
      rcases List.mem_cons.mp hv with rfl | hv'
      · exact rankLE_trans (rankLE_prioStep_right init v) hinit
      · exact hall v hv'

/-- `pickPriority` returns a member of maximal rank: no other demux entry
of the lane has a "better" (dual preferred, then larger index-length sum)
mask. -/
theorem pickPriority_spec (l : List (PyStr × (Nat × Nat))) (e : PyStr × (Nat × Nat))
    (h : pickPriority l = some e) : e ∈ l ∧ ∀ v ∈ l, rankLE v.2 e.2 := by
  cases l with
  | nil => cases h
  | cons a rest =>
    simp only [pickPriority, Option.some.injEq] at h
    subst h
    obtain ⟨hmem, hinit, hall⟩ := priorityFold_spec rest a
    constructor
    · rcases hmem with he | hm
      · rw [he]; exact List.mem_cons_self a rest
      · exact List.mem_cons_of_mem _ hm
    · intro v hv
      rcases List.mem_cons.mp hv with rfl | hv'
      · exact hinit
      · exact hall v hv'

/-! ### `Standard_Run._compute_base_mask` (`Standard_Runs.py` lines 552–757) -/

/-- One read of the run geometry (from `RunInfo.xml`): its `Number`, its
`NumCycles`, and whether `IsIndexedRead` is not `"N"`. -/
structure GeoRead where
  number : Nat
  numCycles : Nat
  isIndexed : Bool
  deriving DecidableEq, Repr

/-- One `(letter, count)` piece of a mask token: the Python code builds
tokens such as `"Y150N10"` by string concatenation of letter+number
pieces; a token is modelled as the list of its pieces. -/
abbrev Segment := Char × Nat

abbrev MaskToken := List Segment

/-- The integers embedded in a mask token, summed. -/
def tokenCycles (t : MaskToken) : Nat := (t.map Prod.snd).sum

/-- Data-read token: `Y<size>N<rest>` / `N<cycles>` / `Y<cycles>`. -/
def dataReadMask (size cycles : Nat) : MaskToken :=
  if size < cycles then
    if size ≠ 0 then [('Y', size), ('N', cycles - size)]
    else [('N', cycles)]
  else [('Y', cycles)]

/-- The UMI sub-branch shared by both index reads: `I<idx>` then the UMI
marker (`Y` for bcl2fastq, `U` for bclconvert) then a masked tail, or a
`RuntimeError` when the UMI exceeds the positive remainder. -/
def umiMask (software : PyStr) (idxSize umiSize rem : Nat) (errMsg : String) :
    Except String MaskToken :=
  if umiSize < rem then
    if software == "bcl2fastq".data then
      .ok [('I', idxSize), ('Y', umiSize), ('N', rem - umiSize)]
    else if software == "bclconvert".data then
      .ok [('I', idxSize), ('U', umiSize), ('N', rem - umiSize)]
    else .error "Unrecognized software!"
  else if rem = umiSize then
    if software == "bcl2fastq".data then .ok [('I', idxSize), ('Y', umiSize)]
    else if software == "bclconvert".data then .ok [('I', idxSize), ('U', umiSize)]
    else .error "Unrecognized software!"
  else .error errMsg

/-- Token for the first index read (`Number == 2`). -/
def indexRead1Mask (software : PyStr) (sampleType : SampleType)
    (index1Size umi1Size cycles : Nat) : Except String MaskToken :=
  if cycles < index1Size then
    .error "index 1 in samplesheet larger than the index specified in RunInfo.xml"
  else if 0 < cycles - index1Size then
    if sampleType = .idtUmi then
      if umi1Size ≠ 0 then
        umiMask software index1Size umi1Size (cycles - index1Size)
          "some UMI1 length is longer than specified in RunInfo.xml"
      else .ok [('I', index1Size), ('N', cycles - index1Size)]
    else if index1Size = 0 then .ok [('N', cycles)]
    else .ok [('I', index1Size), ('N', cycles - index1Size)]
  else .ok [('I', cycles)]

/-- Token for the second index read (`Number != 2` among index reads). -/
def indexRead2Mask (software : PyStr) (sampleType : SampleType)
    (index2Size umi2Size cycles : Nat) (isDualIndex : Bool) : Except String MaskToken :=
  if cycles < index2Size then
    .error "index 2 in samplesheet larger than the index specified in RunInfo.xml"
  else if isDualIndex || sampleType = .tenxSingle then
    if sampleType = .tenxSingle then
      if software == "bcl2fastq".data then .ok [('Y', cycles)]
      else if software == "bclconvert".data then .ok [('U', cycles)]
      else .error "Unrecognized software!"
    else if 0 < cycles - index2Size then
      if sampleType = .idtUmi then
        if umi2Size ≠ 0 then
          umiMask software index2Size umi2Size (cycles - index2Size)
            "some UMI2 length is longer than specified in RunInfo.xml"
        else .ok [('I', index2Size), ('N', cycles - index2Size)]
      else if index2Size = 0 then .ok [('N', cycles)]
      else .ok [('I', index2Size), ('N', cycles - index2Size)]
    else .ok [('I', cycles)]
  else .ok [('N', cycles)]

/-- The mask token `_compute_base_mask` emits for one read of the
geometry (the body of its `for read in runSetup` loop). -/
def maskForRead (software : PyStr) (sampleType : SampleType)
    (index1Size index2Size umi1Size umi2Size read1Size read2Size : Nat)
    (isDualIndex : Bool) (read : GeoRead) : Except String MaskToken :=
  if !read.isIndexed then
    if read.number = 1 then .ok (dataReadMask read1Size read.numCycles)
    else .ok (dataReadMask read2Size read.numCycles)
  else
    if read.number = 2 then
      indexRead1Mask software sampleType index1Size umi1Size read.numCycles
    else
      indexRead2Mask software sampleType index2Size umi2Size read.numCycles isDualIndex

/-- Sequential token collection of the `for read in runSetup` loop:
one appended token per read, aborting on the first raised error. -/
def tokensFor (f : GeoRead → Except String MaskToken) :
    List GeoRead → Except String (List MaskToken)
  | [] => .ok []
  | r :: rest =>
    match f r with
    | .error e => .error e
    | .ok t =>
      match tokensFor f rest with
      | .error e => .error e
      | .ok ts => .ok (t :: ts)

/-- `_compute_base_mask`: the guard on more than 4 reads, then one mask
token per geometry read. -/
def computeBaseMask (software : PyStr) (runSetup : List GeoRead) (sampleType : SampleType)
    (index1Size : Nat) (isDualIndex : Bool)
    (index2Size umi1Size umi2Size read1Size read2Size : Nat) :
    Except String (List MaskToken) :=
  if 4 < runSetup.length then
    .error "more than 4 reads in the RunSetup.xml"
  else
    tokensFor (maskForRead software sampleType index1Size index2Size umi1Size umi2Size
      read1Size read2Size isDualIndex) runSetup

theorem dataReadMask_cycles (size cycles : Nat) :
    tokenCycles (dataReadMask size cycles) = cycles := by
  unfold dataReadMask tokenCycles
  repeat' split
  all_goals simp only [List.map_cons, List.map_nil, List.sum_cons, List.sum_nil]
  all_goals omega

theorem umiMask_cycles (software : PyStr) (idxSize umiSize rem : Nat) (msg : String)
    (t : MaskToken) (h : umiMask software idxSize umiSize rem msg = .ok t) :
    tokenCycles t = idxSize + rem := by
  unfold umiMask at h
  repeat' split at h
  all_goals first
    | (injection h with h; subst h;
       simp only [tokenCycles, List.map_cons, List.map_nil, List.sum_cons, List.sum_nil];
       omega)
    | (injection h)

theorem indexRead1Mask_cycles (software : PyStr) (sampleType : SampleType)
    (i1 u1 cycles : Nat) (t : MaskToken)
    (h : indexRead1Mask software sampleType i1 u1 cycles = .ok t) :
    tokenCycles t = cycles := by
  unfold indexRead1Mask at h
  repeat' split at h
  all_goals first
    | (injection h with h; subst h;
       simp only [tokenCycles, List.map_cons, List.map_nil, List.sum_cons, List.sum_nil];
       omega)
    | (have hu := umiMask_cycles _ _ _ _ _ _ h; omega)
    | (injection h)

theorem indexRead2Mask_cycles (software : PyStr) (sampleType : SampleType)
    (i2 u2 cycles : Nat) (dual : Bool) (t : MaskToken)
    (h : indexRead2Mask software sampleType i2 u2 cycles dual = .ok t) :
    tokenCycles t = cycles := by
  unfold indexRead2Mask at h
  repeat' split at h
  all_goals first
    | (injection h with h; subst h;
       simp only [tokenCycles, List.map_cons, List.map_nil, List.sum_cons, List.sum_nil];
       omega)
    | (have hu := umiMask_cycles _ _ _ _ _ _ h; omega)
    | (injection h)

theorem maskForRead_cycles (software : PyStr) (sampleType : SampleType)
    (i1 i2 u1 u2 r1 r2 : Nat) (dual : Bool) (read : GeoRead) (t : MaskToken)
    (h : maskForRead software sampleType i1 i2 u1 u2 r1 r2 dual read = .ok t) :
    tokenCycles t = read.numCycles := by
  unfold maskForRead at h
  repeat' split at h
  all_goals first
    | (injection h with h; subst h; exact dataReadMask_cycles _ _)
    | (exact indexRead1Mask_cycles _ _ _ _ _ _ h)
    | (exact indexRead2Mask_cycles _ _ _ _ _ _ _ h)

theorem tokensFor_ok (f : GeoRead → Except String MaskToken) (l : List GeoRead)
    (r : List MaskToken) (h : tokensFor f l = .ok r) :
    r.length = l.length ∧
    ∀ (i : Nat) a b, l[i]? = some a → r[i]? = some b → f a = .ok b := by
  induction l generalizing r with
  | nil =>
    cases h
    exact ⟨rfl, by intro i a b ha; simp at ha⟩
  | cons x xs ih =>
    unfold tokensFor at h
    split at h
    · cases h
    · split at h
      · cases h
      · injection h with h
        subst h
        rename_i d1 t ht d2 ts hts
        obtain ⟨hl, hall⟩ := ih _ hts
        refine ⟨by simp [hl], ?_⟩
        intro i a b ha hb
        cases i with
        | zero =>
          simp only [List.getElem?_cons_zero, Option.some.injEq] at ha hb
          subst ha; subst hb
          exact ht
        | succ n =>
          simp only [List.getElem?_cons_succ] at ha hb
          exact hall n a b ha hb

/-- C5: whenever `_compute_base_mask` returns normally, it emits one mask
token per geometry read, in read order, and the integers embedded in each
token sum exactly to that read's cycle count — for any software and any
size configuration. -/
theorem base_mask_covers_cycles (software : PyStr) (runSetup : List GeoRead)
    (sampleType : SampleType) (i1 : Nat) (dual : Bool) (i2 u1 u2 r1 r2 : Nat)
    (bm : List MaskToken)
    (h : computeBaseMask software runSetup sampleType i1 dual i2 u1 u2 r1 r2 = .ok bm) :
    bm.length = runSetup.length ∧
    ∀ (i : Nat) read t, runSetup[i]? = some read → bm[i]? = some t →
      tokenCycles t = read.numCycles := by
  unfold computeBaseMask at h
  split at h
  · cases h
  · obtain ⟨hl, hall⟩ := tokensFor_ok _ _ _ h
    exact ⟨hl, fun i read t hr ht =>
      maskForRead_cycles software sampleType i1 i2 u1 u2 r1 r2 dual read t
        (hall i read t hr ht)⟩

/-- Witness for `base_mask_covers_cycles`: the spec's 150-8-8-150
ordinary dual-index scenario. -/
theorem base_mask_covers_cycles_witness :
    ([[('Y', 150)], [('I', 8)], [('I', 8)], [('Y', 150)]] : List MaskToken).length =
      ([⟨1, 150, false⟩, ⟨2, 8, true⟩, ⟨3, 8, true⟩, ⟨4, 150, false⟩] : List GeoRead).length ∧
    ∀ (i : Nat) read t,
      ([⟨1, 150, false⟩, ⟨2, 8, true⟩, ⟨3, 8, true⟩, ⟨4, 150, false⟩] :
        List GeoRead)[i]? = some read →
      ([[('Y', 150)], [('I', 8)], [('I', 8)], [('Y', 150)]] : List MaskToken)[i]? = some t →
      tokenCycles t = read.numCycles :=
  base_mask_covers_cycles "bclconvert".data
    [⟨1, 150, false⟩, ⟨2, 8, true⟩, ⟨3, 8, true⟩, ⟨4, 150, false⟩]
    .ordinary 8 true 8 0 0 150 150
    [[('Y', 150)], [('I', 8)], [('I', 8)], [('Y', 150)]] rfl

theorem tokensFor_ok_elem (f : GeoRead → Except String MaskToken) (l : List GeoRead)
    (r : List MaskToken) (h : tokensFor f l = .ok r) :
    ∀ a ∈ l, ∃ t, f a = .ok t := by
  induction l generalizing r with
  | nil => simp
  | cons x xs ih =>
    unfold tokensFor at h
    split at h
    · cases h
    · split at h
      · cases h
      · rename_i d1 t ht d2 ts hts
        intro a ha
        rcases List.mem_cons.mp ha with rfl | ha'
        · exact ⟨t, ht⟩
        · exact ih _ hts a ha'

theorem umiMask_err (software : PyStr) (idxSize umiSize rem : Nat) (msg : String)
    (hlt : rem < umiSize) :
    ∀ t, umiMask software idxSize umiSize rem msg ≠ .ok t := by
  intro t hok
  unfold umiMask at hok
  repeat' split at hok
  all_goals first | omega | (cases hok)

theorem indexRead1Mask_err (software : PyStr) (sampleType : SampleType)
    (i1 u1 cycles : Nat)
    (hc : cycles < i1 ∨ (sampleType = .idtUmi ∧ u1 ≠ 0 ∧
      0 < cycles - i1 ∧ cycles - i1 < u1)) :
    ∀ t, indexRead1Mask software sampleType i1 u1 cycles ≠ .ok t := by
  intro t hok
  unfold indexRead1Mask at hok
  rcases hc with hcy | ⟨hty, hu, hrem, hlt⟩
  · rw [if_pos hcy] at hok; cases hok
  · rw [if_neg (by omega)] at hok
    rw [if_pos hrem] at hok
    rw [if_pos hty] at hok
    rw [if_pos hu] at hok
    exact umiMask_err _ _ _ _ _ hlt t hok

theorem indexRead2Mask_err (software : PyStr) (sampleType : SampleType)
    (i2 u2 cycles : Nat) (dual : Bool)
    (hc : cycles < i2 ∨ (dual = true ∧ sampleType = .idtUmi ∧ u2 ≠ 0 ∧
      0 < cycles - i2 ∧ cycles - i2 < u2)) :
    ∀ t, indexRead2Mask software sampleType i2 u2 cycles dual ≠ .ok t := by
  intro t hok
  unfold indexRead2Mask at hok
  rcases hc with hcy | ⟨hd, hty, hu, hrem, hlt⟩
  · rw [if_pos hcy] at hok; cases hok
  · rw [if_neg (by omega)] at hok
    rw [if_pos (by simp [hd])] at hok
    rw [if_neg (by simp [hty])] at hok
    rw [if_pos hrem] at hok
    rw [if_pos hty] at hok
    rw [if_pos hu] at hok
    exact umiMask_err _ _ _ _ _ hlt t hok

theorem maskForRead_error_conds (software : PyStr) (sampleType : SampleType)
    (i1 i2 u1 u2 r1 r2 : Nat) (dual : Bool) (read : GeoRead)
    (hidx : read.isIndexed = true)
    (hc : (read.number = 2 ∧ read.numCycles < i1) ∨
          (read.number ≠ 2 ∧ read.numCycles < i2) ∨
          (read.number = 2 ∧ sampleType = .idtUmi ∧ u1 ≠ 0 ∧
            0 < read.numCycles - i1 ∧ read.numCycles - i1 < u1) ∨
          (read.number ≠ 2 ∧ dual = true ∧ sampleType = .idtUmi ∧ u2 ≠ 0 ∧
            0 < read.numCycles - i2 ∧ read.numCycles - i2 < u2)) :
    ∀ t, maskForRead software sampleType i1 i2 u1 u2 r1 r2 dual read ≠ .ok t := by
  intro t hok
  unfold maskForRead at hok
  rw [if_neg (by simp [hidx])] at hok
  rcases hc with ⟨hn, hcy⟩ | ⟨hn, hcy⟩ | ⟨hn, hty, hu, hrem, hlt⟩ |
    ⟨hn, hd, hty, hu, hrem, hlt⟩
  · rw [if_pos hn] at hok
    exact indexRead1Mask_err _ _ _ _ _ (Or.inl hcy) t hok
  · rw [if_neg hn] at hok
    exact indexRead2Mask_err _ _ _ _ _ _ (Or.inl hcy) t hok
  · rw [if_pos hn] at hok
    exact indexRead1Mask_err _ _ _ _ _ (Or.inr ⟨hty, hu, hrem, hlt⟩) t hok
  · rw [if_neg hn] at hok
    exact indexRead2Mask_err _ _ _ _ _ _ (Or.inr ⟨hd, hty, hu, hrem, hlt⟩) t hok

/-- C8 (amended): `_compute_base_mask` raises `RuntimeError` (no mask
list is returned, nothing is silently clamped) whenever the configured
`index1_size` exceeds the first index read's cycles, or `index2_size`
exceeds the second index read's cycles, or — for an `IDT_UMI` sample —
the nonzero UMI length exceeds a *positive* remainder of the index read.
(When the index size equals the full cycle count the remainder is zero:
the UMI is then silently dropped and a mask is still returned, see the
counterexample.) -/
theorem base_mask_raises_on_oversized (software : PyStr) (runSetup : List GeoRead)
    (sampleType : SampleType) (i1 : Nat) (dual : Bool) (i2 u1 u2 r1 r2 : Nat)
    (h : ∃ read ∈ runSetup, read.isIndexed = true ∧
      ((read.number = 2 ∧ read.numCycles < i1) ∨
       (read.number ≠ 2 ∧ read.numCycles < i2) ∨
       (read.number = 2 ∧ sampleType = .idtUmi ∧ u1 ≠ 0 ∧
         0 < read.numCycles - i1 ∧ read.numCycles - i1 < u1) ∨
       (read.number ≠ 2 ∧ dual = true ∧ sampleType = .idtUmi ∧ u2 ≠ 0 ∧
         0 < read.numCycles - i2 ∧ read.numCycles - i2 < u2))) :
    ∀ bm, computeBaseMask software runSetup sampleType i1 dual i2 u1 u2 r1 r2 ≠ .ok bm := by
  intro bm hok
  unfold computeBaseMask at hok
  split at hok
  · cases hok
  · obtain ⟨read, hmem, hidx, hc⟩ := h
    obtain ⟨t, ht⟩ := tokensFor_ok_elem _ _ _ hok read hmem
    exact maskForRead_error_conds software sampleType i1 i2 u1 u2 r1 r2 dual read
      hidx hc t ht

/-- Witness for `base_mask_raises_on_oversized`: index1 size 10 against
an 8-cycle index read never yields the 150-8 mask (nor any other). -/
theorem base_mask_raises_on_oversized_witness :
    computeBaseMask "bclconvert".data [⟨1, 150, false⟩, ⟨2, 8, true⟩]
      .ordinary 10 false 0 0 0 150 0 ≠ .ok [[('Y', 150)], [('I', 8)]] :=
  base_mask_raises_on_oversized "bclconvert".data [⟨1, 150, false⟩, ⟨2, 8, true⟩]
    .ordinary 10 false 0 0 0 150 0
    ⟨⟨2, 8, true⟩, by decide, rfl, Or.inl ⟨rfl, by decide⟩⟩ [[('Y', 150)], [('I', 8)]]

/-- C8 fails as literally stated for the UMI clause: an `IDT_UMI` sample
whose UMI length (3) exceeds the remaining index cycles (8 − 8 = 0) does
NOT raise — the UMI is silently dropped and a mask list is returned. -/
theorem base_mask_umi_counterexample :
    computeBaseMask "bclconvert".data [⟨1, 151, false⟩, ⟨2, 8, true⟩]
      .idtUmi 8 false 0 3 0 151 0 = .ok [[('Y', 151)], [('I', 8)]] ∧
    (3 : Nat) > 8 - 8 := ⟨rfl, by decide⟩

/-! ### The sub-samplesheet glob `*_[0-9].csv` (C9)

Both `check_run_status` (`Runs.py` lines 80–82) and
`_aggregate_demux_results_simple_complex` (`Runs.py` line 1405) collect
sub-demultiplexing samplesheets with `glob.glob(run_dir + "/*_[0-9].csv")`,
while `demultiplex_run` names them `f"SampleSheet_{bcl_cmd_counter}.csv"`. -/

inductive GlobTok
  | star
  | digitClass
  | lit (c : Char)
  deriving DecidableEq, Repr

/-- `fnmatch`-style matching for glob patterns built from `*`, `[0-9]`
and literal characters (the basenames matched contain no `/`): a `*`
matches at any suffix (via `scanAny`), a class or literal consumes one
character. -/
def globMatch : List GlobTok → List Char → Bool
  | [], s => s.isEmpty
  | .star :: p, s => scanAny (globMatch p) s
  | .digitClass :: p, s =>
    match s with
    | c :: s' => c.isDigit && globMatch p s'
    | [] => false
  | .lit c :: p, s =>
    match s with
    | c' :: s' => (c = c') && globMatch p s'
    | [] => false

/-- The glob pattern `*_[0-9].csv`. -/
def demuxSheetGlob : List GlobTok :=
  [.star, .lit '_', .digitClass, .lit '.', .lit 'c', .lit 's', .lit 'v']

theorem scanAny_iff (f : List Char → Bool) (s : List Char) :
    scanAny f s = true ↔ ∃ k, f (s.drop k) = true := by
  induction s with
  | nil =>
    simp only [scanAny, List.drop_nil]
    exact ⟨fun h => ⟨0, h⟩, fun ⟨_, h⟩ => h⟩
  | cons c s ih =>
    simp only [scanAny, Bool.or_eq_true]
    constructor
    · rintro (h | h)
      · exact ⟨0, by simpa using h⟩
      · obtain ⟨k, hk⟩ := ih.mp h
        exact ⟨k + 1, by simpa using hk⟩
    · rintro ⟨k, hk⟩
      cases k with
      | zero => exact Or.inl (by simpa using hk)
      | succ k => exact Or.inr (ih.mpr ⟨k, by simpa using hk⟩)

theorem globMatch_star_iff (p : List GlobTok) (s : List Char) :
    globMatch (.star :: p) s = true ↔ ∃ k, globMatch p (s.drop k) = true := by
  simpa only [globMatch] using scanAny_iff (globMatch p) s

theorem glob_tail_iff (t : List Char) :
    globMatch [.lit '_', .digitClass, .lit '.', .lit 'c', .lit 's', .lit 'v'] t = true ↔
      ∃ d, d.isDigit = true ∧ t = ['_', d, '.', 'c', 's', 'v'] := by
  rcases t with _ | ⟨a, _ | ⟨b, _ | ⟨c, _ | ⟨d, _ | ⟨e, _ | ⟨f, rest⟩⟩⟩⟩⟩⟩ <;>
    (try cases rest) <;> simp [globMatch] <;> aesop

theorem digitChar_isDigit (m : Nat) (h : m < 10) : (Nat.digitChar m).isDigit = true := by
  interval_cases m <;> decide

theorem toDigitsCore_digits (fuel : Nat) : ∀ (n : Nat) (acc : List Char),
    (∀ c ∈ acc, c.isDigit = true) →
    ∀ c ∈ Nat.toDigitsCore 10 fuel n acc, c.isDigit = true := by
  induction fuel with
  | zero =>
    intro n acc hacc
    simpa [Nat.toDigitsCore] using hacc
  | succ f ih =>
    intro n acc hacc c hc
    simp only [Nat.toDigitsCore] at hc
    split at hc
    · rcases List.mem_cons.mp hc with rfl | hmem
      · exact digitChar_isDigit _ (Nat.mod_lt _ (by omega))
      · exact hacc c hmem
    · refine ih _ _ ?_ c hc
      intro c' hc'
      rcases List.mem_cons.mp hc' with rfl | hmem
      · exact digitChar_isDigit _ (Nat.mod_lt _ (by omega))
      · exact hacc c' hmem

theorem repr_data_digits (n : Nat) : ∀ c ∈ (Nat.repr n).data, c.isDigit = true := by
  intro c hc
  have : (Nat.repr n).data = Nat.toDigitsCore 10 (n + 1) n [] := rfl
  rw [this] at hc
  exact toDigitsCore_digits (n + 1) n [] (by simp) c hc

theorem repr_lt_ten (n : Nat) (h : n < 10) : (Nat.repr n).data = [Nat.digitChar n] := by
  have hdiv : n / 10 = 0 := Nat.div_eq_of_lt h
  have hmod : n % 10 = n := Nat.mod_eq_of_lt h
  show Nat.toDigitsCore 10 (n + 1) n [] = [Nat.digitChar n]
  simp [Nat.toDigitsCore, hdiv, hmod]

theorem toDigitsCore_length_ge (fuel : Nat) : ∀ (n : Nat) (acc : List Char), 0 < fuel →
    acc.length + 1 ≤ (Nat.toDigitsCore 10 fuel n acc).length := by
  induction fuel with
  | zero => omega
  | succ f ih =>
    intro n acc _
    simp only [Nat.toDigitsCore]
    split
    · simp
    · cases f with
      | zero => simp [Nat.toDigitsCore]
      | succ f' =>
        have := ih (n / 10) (Nat.digitChar (n % 10) :: acc) (by omega)
        simp only [List.length_cons] at this
        omega

theorem repr_ge_ten_length (n : Nat) (h : 10 ≤ n) : 2 ≤ (Nat.repr n).data.length := by
  have hdiv : ¬ n / 10 = 0 := by
    have : 1 ≤ n / 10 := (Nat.le_div_iff_mul_le (by omega)).mpr (by omega)
    omega
  have : (Nat.repr n).data = Nat.toDigitsCore 10 (n + 1) n [] := rfl
  rw [this]
  have hn : n + 1 = (n : Nat) + 1 := rfl
  simp only [Nat.toDigitsCore, hdiv, if_false]
  have := toDigitsCore_length_ge n (n / 10) [Nat.digitChar (n % 10)] (by omega)
  simpa using this

/-- C9: the sub-samplesheet filename `SampleSheet_<n>.csv` generated by
`demultiplex_run` matches the enumeration glob `*_[0-9].csv` used by both
`check_run_status` and `_aggregate_demux_results_simple_complex` exactly
when `n < 10`: a sub-job whose id has two or more digits is never seen
again, so at most 10 sub-demultiplexings (ids 0–9) can participate. -/
theorem demux_sheet_glob_single_digit (n : Nat) :
    globMatch demuxSheetGlob
      ("SampleSheet_".data ++ (Nat.repr n).data ++ ".csv".data) = true ↔ n < 10 := by
  constructor
  · intro h
    by_contra hge
    push_neg at hge
    rw [show demuxSheetGlob = .star ::
      [.lit '_', .digitClass, .lit '.', .lit 'c', .lit 's', .lit 'v'] from rfl] at h
    obtain ⟨k, hk⟩ := (globMatch_star_iff _ _).mp h
    obtain ⟨d, _, heq⟩ := (glob_tail_iff _).mp hk
    set s := "SampleSheet_".data ++ (Nat.repr n).data ++ ".csv".data with hs
    set L := (Nat.repr n).data.length with hL
    have hL2 : 2 ≤ L := repr_ge_ten_length n hge
    have hpre : ("SampleSheet_".data).length = 12 := rfl
    have hsuf : (".csv".data).length = 4 := rfl
    have hslen : s.length = 16 + L := by
      rw [hs, List.length_append, List.length_append, hpre, hsuf, ← hL]
      omega
    have hdrop : (s.drop k).length = 6 := by rw [heq]; rfl
    have hklen : k = 10 + L := by
      rw [List.length_drop] at hdrop
      omega
    have hget : s[k]? = some '_' := by
      have h0 : (s.drop k)[0]? = some '_' := by rw [heq]; rfl
      rw [List.getElem?_drop] at h0
      simpa using h0
    have hin : s[k]? = (Nat.repr n).data[k - 12]? := by
      rw [hs, List.append_assoc,
        List.getElem?_append_right (by rw [hpre]; omega),
        List.getElem?_append_left (by rw [hpre, ← hL]; omega), hpre]
    rw [hin] at hget
    have hmem : '_' ∈ (Nat.repr n).data := List.getElem?_mem hget
    have := repr_data_digits n '_' hmem
    exact absurd this (by decide)
  · intro h
    rw [repr_lt_ten n h]
    interval_cases n <;> decide

/-! ### `demultiplex_run` sub-job counting (`Standard_Runs.py` lines 252–301)

For each `sample_type` (in sorted order) the code builds `lane_table`,
mapping each lane to its deduplicated, insertion-ordered list of
`(index_length, umi_length, read_length)` tuples, then computes
`demux_number_with_the_same_sample_type` and runs
`for i in range(0, demux_number...)`, each iteration creating exactly one
sub-samplesheet and one detached demux command. -/

/-- One `sample_table` detail record (`sample[1]` in the source). -/
structure SampleDetail where
  sampleType : SampleType
  indexLength : Nat × Nat
  umiLength : Nat × Nat
  readLength : Nat × Nat
  deriving DecidableEq, Repr

/-- The `(index_length, umi_length, read_length)` tuple. -/
abbrev DemuxMask := (Nat × Nat) × (Nat × Nat) × (Nat × Nat)

def maskOf (d : SampleDetail) : DemuxMask := (d.indexLength, d.umiLength, d.readLength)

/-- `if mask not in list: list.append(mask)`. -/
def insertNew (a : List DemuxMask) (m : DemuxMask) : List DemuxMask :=
  if m ∈ a then a else a ++ [m]

/-- Insert one sample's tuple into `lane_table` (append the lane at the
end when new, append the tuple to the lane's list when unseen). -/
def addMask (lane : PyStr) (m : DemuxMask) :
    List (PyStr × List DemuxMask) → List (PyStr × List DemuxMask)
  | [] => [(lane, [m])]
  | (l, ms) :: rest =>
    if l == lane then (l, insertNew ms m) :: rest
    else (l, ms) :: addMask lane m rest

/-- The body of the per-sample `lane_table` update for one lane. -/
def laneStep (t : SampleType) (lane : PyStr) (a : List (PyStr × List DemuxMask))
    (s : PyStr × SampleDetail) : List (PyStr × List DemuxMask) :=
  if s.2.sampleType = t then addMask lane (maskOf s.2) a else a

/-- `lane_table` for one `sample_type` over the whole `sample_table`. -/
def buildLaneTable (t : SampleType) (st : List (PyStr × List (PyStr × SampleDetail))) :
    List (PyStr × List DemuxMask) :=
  st.foldl (fun acc lane => lane.2.foldl (laneStep t lane.1) acc) []

/-- `demux_number_with_the_same_sample_type` (`some` for the two known
software values; the Python `max(...)` over an empty `lane_table` would
raise, here it yields 0 — the sample type is always present in practice). -/
def demuxNumber (software : PyStr) (t : SampleType)
    (st : List (PyStr × List (PyStr × SampleDetail))) : Option Nat :=
  let lt := buildLaneTable t st
  if software == "bcl2fastq".data then
    some (lt.foldl (fun acc p => max acc p.2.length) 0)
  else if software == "bclconvert".data then
    some ((lt.foldl (fun acc p => p.2.foldl insertNew acc) []).length)
  else none

/-- One step of collecting a lane's deduplicated type-`t` tuples. -/
def maskStep (t : SampleType) (ms : List DemuxMask) (s : PyStr × SampleDetail) :
    List DemuxMask :=
  if s.2.sampleType = t then insertNew ms (maskOf s.2) else ms

/-- The deduplicated tuple list of one lane's type-`t` samples. -/
def laneMasks (t : SampleType) (samples : List (PyStr × SampleDetail)) : List DemuxMask :=
  samples.foldl (maskStep t) []

/-- The type-`t` tuples of a lane, in samplesheet order, with duplicates. -/
def typeMasks (t : SampleType) (samples : List (PyStr × SampleDetail)) : List DemuxMask :=
  (samples.filter (fun s => s.2.sampleType = t)).map (fun s => maskOf s.2)

/-- Spec §4.3: distinct tuples of one lane for one sample type. -/
def distinctMaskCount (t : SampleType) (samples : List (PyStr × SampleDetail)) : Nat :=
  (typeMasks t samples).dedup.length

/-- Spec §4.3: "the maximum, over all lanes containing that type, of the
number of distinct tuples in that lane" (lanes without the type
contribute 0 and never attain a positive maximum). -/
def specMaxDistinct (t : SampleType) (st : List (PyStr × List (PyStr × SampleDetail))) : Nat :=
  (st.map (fun p => distinctMaskCount t p.2)).foldl max 0

/-- Distinct tuples of one sample type across all lanes. -/
def specTotalDistinct (t : SampleType) (st : List (PyStr × List (PyStr × SampleDetail))) : Nat :=
  (st.flatMap (fun p => typeMasks t p.2)).dedup.length

theorem addMask_notin (lane : PyStr) (m : DemuxMask) (acc : List (PyStr × List DemuxMask))
    (h : ∀ e ∈ acc, ¬ e.1 = lane) : addMask lane m acc = acc ++ [(lane, [m])] := by
  induction acc with
  | nil => rfl
  | cons e rest ih =>
    rcases e with ⟨l, ms⟩
    have he : ¬ l = lane := h _ (List.mem_cons_self _ _)
    simp only [addMask]
    rw [if_neg (by simp [he])]
    rw [ih (fun e' h' => h e' (List.mem_cons_of_mem _ h'))]
    simp

theorem addMask_atEnd (lane : PyStr) (m : DemuxMask) (acc : List (PyStr × List DemuxMask))
    (ms : List DemuxMask) (h : ∀ e ∈ acc, ¬ e.1 = lane) :
    addMask lane m (acc ++ [(lane, ms)]) = acc ++ [(lane, insertNew ms m)] := by
  induction acc with
  | nil => simp [addMask]
  | cons e rest ih =>
    rcases e with ⟨l, ms'⟩
    have he : ¬ l = lane := h _ (List.mem_cons_self _ _)
    simp only [List.cons_append, addMask]
    rw [if_neg (by simp [he])]
    exact congrArg (fun x => (l, ms') :: x)
      (ih (fun e' h' => h e' (List.mem_cons_of_mem _ h')))

theorem laneFold_atEnd (t : SampleType) (lane : PyStr)
    (samples : List (PyStr × SampleDetail)) :
    ∀ (acc : List (PyStr × List DemuxMask)) (ms : List DemuxMask),
      (∀ e ∈ acc, ¬ e.1 = lane) →
      samples.foldl (laneStep t lane) (acc ++ [(lane, ms)]) =
        acc ++ [(lane, samples.foldl (maskStep t) ms)] := by
  induction samples with
  | nil => intro acc ms _; rfl
  | cons s rest ih =>
    intro acc ms h
    simp only [List.foldl_cons]
    by_cases hty : s.2.sampleType = t
    · rw [show laneStep t lane (acc ++ [(lane, ms)]) s =
          acc ++ [(lane, insertNew ms (maskOf s.2))] from by
        simp only [laneStep, if_pos hty]
        exact addMask_atEnd _ _ _ _ h]
      rw [show maskStep t ms s = insertNew ms (maskOf s.2) from by
        simp [maskStep, hty]]
      exact ih _ _ h
    · rw [show laneStep t lane (acc ++ [(lane, ms)]) s = acc ++ [(lane, ms)] from by
        simp [laneStep, hty]]
      rw [show maskStep t ms s = ms from by simp [maskStep, hty]]
      exact ih _ _ h

theorem maskFold_ne_nil (t : SampleType) (samples : List (PyStr × SampleDetail)) :
    ∀ ms, ms ≠ [] → samples.foldl (maskStep t) ms ≠ [] := by
  induction samples with
  | nil => intro ms h; exact h
  | cons s rest ih =>
    intro ms h
    simp only [List.foldl_cons]
    refine ih _ ?_
    unfold maskStep insertNew
    split
    · split
      · exact h
      · simp
    · exact h

theorem laneFold_fresh (t : SampleType) (lane : PyStr)
    (samples : List (PyStr × SampleDetail)) :
    ∀ acc, (∀ e ∈ acc, ¬ e.1 = lane) →
      samples.foldl (laneStep t lane) acc =
        if laneMasks t samples = [] then acc
        else acc ++ [(lane, laneMasks t samples)] := by
  induction samples with
  | nil => intro acc _; rfl
  | cons s rest ih =>
    intro acc h
    simp only [List.foldl_cons]
    by_cases hty : s.2.sampleType = t
    · have hstep : laneStep t lane acc s = acc ++ [(lane, [maskOf s.2])] := by
        simp only [laneStep, if_pos hty]
        exact addMask_notin _ _ _ h
      rw [hstep, laneFold_atEnd t lane rest acc [maskOf s.2] h]
      have hlm : laneMasks t (s :: rest) = rest.foldl (maskStep t) [maskOf s.2] := by
        simp [laneMasks, maskStep, hty, insertNew]
      rw [hlm]
      rw [if_neg (maskFold_ne_nil t rest [maskOf s.2] (by simp))]
    · have hstep : laneStep t lane acc s = acc := by simp [laneStep, hty]
      have hlm : laneMasks t (s :: rest) = laneMasks t rest := by
        simp [laneMasks, maskStep, hty]
      rw [hstep, hlm]
      exact ih acc h

theorem buildLaneTable_go (t : SampleType) (st : List (PyStr × List (PyStr × SampleDetail))) :
    ∀ acc, (∀ e ∈ acc, ∀ p ∈ st, ¬ e.1 = p.1) → (st.map Prod.fst).Nodup →
      st.foldl (fun a lane => lane.2.foldl (laneStep t lane.1) a) acc =
        acc ++ st.filterMap (fun p =>
          if laneMasks t p.2 = [] then none else some (p.1, laneMasks t p.2)) := by
  induction st with
  | nil => intro acc _ _; simp
  | cons p rest ih =>
    intro acc hdisj hnodup
    rw [List.map_cons] at hnodup
    have hnd := List.nodup_cons.mp hnodup
    simp only [List.foldl_cons]
    have hacc : ∀ e ∈ acc, ¬ e.1 = p.1 :=
      fun e he => hdisj e he p (List.mem_cons_self p rest)
    by_cases hlm : laneMasks t p.2 = []
    · rw [laneFold_fresh t p.1 p.2 acc hacc, if_pos hlm]
      rw [List.filterMap_cons_none (by rw [if_pos hlm])]
      exact ih acc (fun e he q hq => hdisj e he q (List.mem_cons_of_mem _ hq)) hnd.2
    · rw [laneFold_fresh t p.1 p.2 acc hacc, if_neg hlm]
      rw [List.filterMap_cons_some (by rw [if_neg hlm])]
      have hnew : ∀ e ∈ acc ++ [(p.1, laneMasks t p.2)], ∀ q ∈ rest, ¬ e.1 = q.1 := by
        intro e he q hq
        rcases List.mem_append.mp he with he' | he'
        · exact hdisj e he' q (List.mem_cons_of_mem _ hq)
        · have he2 := List.mem_singleton.mp he'
          subst he2
          intro hx
          exact hnd.1 (List.mem_map.mpr ⟨q, hq, by simpa using hx.symm⟩)
      rw [ih _ hnew hnd.2]
      simp

theorem insertNew_toFinset (a : List DemuxMask) (m : DemuxMask) :
    (insertNew a m).toFinset = insert m a.toFinset := by
  unfold insertNew
  split
  · rename_i hmem
    exact (Finset.insert_eq_self.mpr (List.mem_toFinset.mpr hmem)).symm
  · rw [List.toFinset_append]
    simp [Finset.union_comm, Finset.insert_eq]

theorem insertNew_nodup (a : List DemuxMask) (m : DemuxMask) (h : a.Nodup) :
    (insertNew a m).Nodup := by
  unfold insertNew
  split
  · exact h
  · rename_i hmem
    simp [List.nodup_append, h, hmem]

theorem foldl_insertNew_toFinset (l : List DemuxMask) :
    ∀ a, (l.foldl insertNew a).toFinset = a.toFinset ∪ l.toFinset := by
  induction l with
  | nil => simp
  | cons m rest ih =>
    intro a
    simp only [List.foldl_cons, ih, insertNew_toFinset, List.toFinset_cons]
    rw [Finset.insert_union, Finset.union_insert]

theorem foldl_insertNew_nodup (l : List DemuxMask) :
    ∀ a, a.Nodup → (l.foldl insertNew a).Nodup := by
  induction l with
  | nil => exact fun a h => h
  | cons m rest ih => exact fun a h => ih _ (insertNew_nodup _ _ h)

theorem typeMasks_cons (t : SampleType) (s : PyStr × SampleDetail)
    (rest : List (PyStr × SampleDetail)) :
    typeMasks t (s :: rest) =
      if s.2.sampleType = t then maskOf s.2 :: typeMasks t rest else typeMasks t rest := by
  unfold typeMasks
  by_cases hty : s.2.sampleType = t
  · rw [if_pos hty, List.filter_cons, if_pos (by simp [hty])]
    simp
  · rw [if_neg hty, List.filter_cons, if_neg (by simp [hty])]

theorem maskFold_eq_insertFold (t : SampleType) (samples : List (PyStr × SampleDetail)) :
    ∀ ms, samples.foldl (maskStep t) ms = (typeMasks t samples).foldl insertNew ms := by
  induction samples with
  | nil => intro ms; rfl
  | cons s rest ih =>
    intro ms
    rw [typeMasks_cons]
    by_cases hty : s.2.sampleType = t
    · rw [if_pos hty]
      simp only [List.foldl_cons, maskStep, if_pos hty]
      exact ih _
    · rw [if_neg hty]
      simp only [List.foldl_cons, maskStep, if_neg hty]
      exact ih _

theorem laneMasks_length (t : SampleType) (samples : List (PyStr × SampleDetail)) :
    (laneMasks t samples).length = distinctMaskCount t samples := by
  unfold laneMasks distinctMaskCount
  rw [maskFold_eq_insertFold]
  have hnd := foldl_insertNew_nodup (typeMasks t samples) [] (by simp)
  have htf := foldl_insertNew_toFinset (typeMasks t samples) []
  rw [← List.toFinset_card_of_nodup hnd, htf]
  simp [List.card_toFinset]

theorem foldmax_eq (t : SampleType) (st : List (PyStr × List (PyStr × SampleDetail))) :
    ∀ n, (st.filterMap (fun p =>
        if laneMasks t p.2 = [] then none else some (p.1, laneMasks t p.2))).foldl
          (fun acc p => max acc p.2.length) n =
      (st.map (fun p => distinctMaskCount t p.2)).foldl max n := by
  induction st with
  | nil => intro n; rfl
  | cons p rest ih =>
    intro n
    by_cases hlm : laneMasks t p.2 = []
    · rw [List.filterMap_cons_none (by rw [if_pos hlm])]
      simp only [List.map_cons, List.foldl_cons]
      rw [ih]
      have h0 : distinctMaskCount t p.2 = 0 := by
        rw [← laneMasks_length t p.2, hlm]
        rfl
      rw [h0, Nat.max_zero]
    · rw [List.filterMap_cons_some (by rw [if_neg hlm])]
      simp only [List.foldl_cons, List.map_cons]
      rw [ih, laneMasks_length]

theorem foldIns_entries (t : SampleType) (st : List (PyStr × List (PyStr × SampleDetail))) :
    ∀ a : List DemuxMask,
      ((st.filterMap (fun p =>
          if laneMasks t p.2 = [] then none else some (p.1, laneMasks t p.2))).foldl
            (fun acc p => p.2.foldl insertNew acc) a).toFinset =
        a.toFinset ∪ (st.flatMap (fun p => typeMasks t p.2)).toFinset ∧
      ∀ (_ : a.Nodup),
        ((st.filterMap (fun p =>
          if laneMasks t p.2 = [] then none else some (p.1, laneMasks t p.2))).foldl
            (fun acc p => p.2.foldl insertNew acc) a).Nodup := by
  induction st with
  | nil => intro a; simp
  | cons p rest ih =>
    intro a
    have hlmtf : (laneMasks t p.2).toFinset = (typeMasks t p.2).toFinset := by
      unfold laneMasks
      rw [maskFold_eq_insertFold, foldl_insertNew_toFinset]
      simp
    by_cases hlm : laneMasks t p.2 = []
    · rw [List.filterMap_cons_none (by rw [if_pos hlm])]
      obtain ⟨h1, h2⟩ := ih a
      refine ⟨?_, h2⟩
      rw [h1, List.flatMap_cons, List.toFinset_append]
      have : (typeMasks t p.2).toFinset = ∅ := by rw [← hlmtf, hlm]; rfl
      rw [this]
      simp
    · rw [List.filterMap_cons_some (by rw [if_neg hlm])]
      simp only [List.foldl_cons]
      obtain ⟨h1, h2⟩ := ih ((laneMasks t p.2).foldl insertNew a)
      constructor
      · rw [h1, foldl_insertNew_toFinset, hlmtf, List.flatMap_cons, List.toFinset_append]
        rw [Finset.union_assoc]
      · intro ha
        exact h2 (foldl_insertNew_nodup _ _ ha)

/-- C7 (amended): for every sample type present, under bcl2fastq the
number of sub-demultiplexing jobs equals the maximum over lanes of the
number of distinct (index_length, umi_length, read_length) tuples among
that type's samples in the lane — as the claim states; under bclconvert
it instead equals the number of distinct such tuples across ALL lanes. -/
theorem demux_subjob_count (t : SampleType)
    (st : List (PyStr × List (PyStr × SampleDetail)))
    (hnodup : (st.map Prod.fst).Nodup) :
    demuxNumber "bcl2fastq".data t st = some (specMaxDistinct t st) ∧
    demuxNumber "bclconvert".data t st = some (specTotalDistinct t st) := by
  have hbuild := buildLaneTable_go t st []
    (fun e he => absurd he (List.not_mem_nil e)) hnodup
  have hlt : buildLaneTable t st = st.filterMap (fun p =>
      if laneMasks t p.2 = [] then none else some (p.1, laneMasks t p.2)) := by
    unfold buildLaneTable
    rw [hbuild]
    simp
  constructor
  · have h1 : demuxNumber "bcl2fastq".data t st =
        some ((buildLaneTable t st).foldl (fun acc p => max acc p.2.length) 0) := rfl
    rw [h1, hlt, foldmax_eq]
    rfl
  · have h1 : demuxNumber "bclconvert".data t st =
        some (((buildLaneTable t st).foldl (fun acc p => p.2.foldl insertNew acc) []).length) :=
      rfl
    rw [h1, hlt]
    obtain ⟨htf, hnd⟩ := foldIns_entries t st []
    rw [← List.toFinset_card_of_nodup (hnd (by simp)), htf]
    simp only [List.toFinset_nil, Finset.empty_union]
    rw [List.card_toFinset]
    rfl

/-- Witness for `demux_subjob_count`: one lane, two ordinary samples with
distinct index lengths. -/
theorem demux_subjob_count_witness :
    demuxNumber "bcl2fastq".data .ordinary
      [(['1'], [(['a'], ⟨.ordinary, (8, 8), (0, 0), (150, 150)⟩),
                (['b'], ⟨.ordinary, (6, 0), (0, 0), (150, 150)⟩)])] =
      some (specMaxDistinct .ordinary
        [(['1'], [(['a'], ⟨.ordinary, (8, 8), (0, 0), (150, 150)⟩),
                  (['b'], ⟨.ordinary, (6, 0), (0, 0), (150, 150)⟩)])]) ∧
    demuxNumber "bclconvert".data .ordinary
      [(['1'], [(['a'], ⟨.ordinary, (8, 8), (0, 0), (150, 150)⟩),
                (['b'], ⟨.ordinary, (6, 0), (0, 0), (150, 150)⟩)])] =
      some (specTotalDistinct .ordinary
        [(['1'], [(['a'], ⟨.ordinary, (8, 8), (0, 0), (150, 150)⟩),
                  (['b'], ⟨.ordinary, (6, 0), (0, 0), (150, 150)⟩)])]) :=
  demux_subjob_count .ordinary
    [(['1'], [(['a'], ⟨.ordinary, (8, 8), (0, 0), (150, 150)⟩),
              (['b'], ⟨.ordinary, (6, 0), (0, 0), (150, 150)⟩)])]
    (by simp)

/-- C7 fails as stated for bclconvert: two lanes with one distinct tuple
each (but different tuples) give TWO sub-jobs under bclconvert, while the
maximum over lanes of per-lane distinct tuples is one. -/
theorem demux_subjob_count_counterexample :
    demuxNumber "bclconvert".data .ordinary
      [(['1'], [(['a'], ⟨.ordinary, (8, 8), (0, 0), (150, 150)⟩)]),
       (['2'], [(['b'], ⟨.ordinary, (6, 0), (0, 0), (150, 150)⟩)])] = some 2 ∧
    specMaxDistinct .ordinary
      [(['1'], [(['a'], ⟨.ordinary, (8, 8), (0, 0), (150, 150)⟩)]),
       (['2'], [(['b'], ⟨.ordinary, (6, 0), (0, 0), (150, 150)⟩)])] = 1 ∧
    (2 : Nat) ≠ 1 := ⟨rfl, rfl, by decide⟩

/-! ### `_fix_html_reports_for_complex_lanes` (`Runs.py` lines 731–906)

The numeric fields the aggregation parses (`int(x.replace(",", ""))`) are
modelled as integers; the float-percentage fields (zeroed for complex
lanes, and the flowcell `Clusters (Raw)` total that divides by a float
percentage) take no part in any claim and are not modelled. -/

/-- Python dict assignment `d[k] = v` on an insertion-ordered
association list. -/
def dictSet (k : PyStr) (v : α) : List (PyStr × α) → List (PyStr × α)
  | [] => [(k, v)]
  | (k', v') :: rest => if k' == k then (k', v) :: rest else (k', v') :: dictSet k v rest

/-- Python `"sub" in s` (substring containment). -/
def pyInStr (needle haystack : PyStr) : Bool :=
  scanAny (fun cs => needle.isPrefixOf cs) haystack

def natToStr (n : Nat) : PyStr := (Nat.repr n).data

/-- One row of a `lane.html` Lane Summary table. -/
structure LaneRow where
  lane : PyStr
  pfClusters : Int
  yieldMb : Int
  deriving DecidableEq, Repr

/-- One row of a `laneBarcode.html` Lane Summary table. -/
structure BarcodeRow where
  lane : PyStr
  project : PyStr
  sample : PyStr
  barcode : PyStr
  pfClusters : Int
  yieldMb : Int
  deriving DecidableEq, Repr

/-- Merging the per-demux `lane.html` reports: the first report is taken
whole; each later report contributes only rows whose lane is not already
present (the lane list is computed once per report). -/
def mergeLaneReports : List (List LaneRow) → List LaneRow
  | [] => []
  | first :: rest =>
    rest.foldl (fun acc rep =>
      acc ++ rep.filter (fun e => !(acc.map (·.lane)).contains e.lane)) first

/-- Merging the per-demux `laneBarcode.html` reports: plain concatenation. -/
def mergeBarcodeReports (reports : List (List BarcodeRow)) : List BarcodeRow :=
  reports.flatten

/-- The `NumberReads_Summary` record of one lane. -/
structure LaneNR where
  totalLaneCluster : Int
  totalLaneYield : Int
  totalSampleCluster : Int
  totalSampleYield : Int
  samplePresent : Bool
  deriving DecidableEq, Repr

/-- First summary pass (`Runs.py` lines 762–767): record each merged
lane row's totals (later rows with the same lane overwrite). -/
def buildLaneTotals (rows : List LaneRow) : List (PyStr × LaneNR) :=
  rows.foldl (fun acc e =>
    dictSet e.lane ⟨e.pfClusters, e.yieldMb, 0, 0, false⟩ acc) []

/-- The collapse of duplicate Undetermined rows of complex lanes
(`Runs.py` lines 804–818): the first default-project row of a complex
lane has its numeric fields zeroed; later ones are removed from the list
being iterated, which makes the Python `for` skip the element after each
removal — the skipped element is kept untouched. -/
def collapseUndet (complexKeys : List PyStr) :
    List PyStr → List BarcodeRow → List BarcodeRow
  | _, [] => []
  | modified, e :: rest =>
    if complexKeys.contains e.lane && pyInStr e.project "default".data then
      if modified.contains e.lane then
        match rest with
        | [] => []
        | nxt :: rest' => nxt :: collapseUndet complexKeys modified rest'
      else
        { e with pfClusters := 0, yieldMb := 0 } ::
          collapseUndet complexKeys (modified ++ [e.lane]) rest
    else e :: collapseUndet complexKeys modified rest

/-- Second summary pass (`Runs.py` lines 821–842): initialise the
`total_sample_*` fields on a lane's first barcode row, and add every
row whose `Project` is not the literal `"default"` (a missing lane would
raise `KeyError` in the source; here the row is skipped). -/
def addSampleTotals (acc : List (PyStr × LaneNR)) (e : BarcodeRow) : List (PyStr × LaneNR) :=
  match dictGet acc e.lane with
  | none => acc
  | some nr =>
    if !nr.samplePresent then
      let nr2 : LaneNR :=
        if !(e.project == "default".data) then
          ⟨nr.totalLaneCluster, nr.totalLaneYield, e.pfClusters, e.yieldMb, true⟩
        else ⟨nr.totalLaneCluster, nr.totalLaneYield, 0, 0, true⟩
      dictSet e.lane nr2 acc
    else
      if !(e.project == "default".data) then
        dictSet e.lane
          ⟨nr.totalLaneCluster, nr.totalLaneYield,
            nr.totalSampleCluster + e.pfClusters,
            nr.totalSampleYield + e.yieldMb, nr.samplePresent⟩ acc
      else acc

/-- `undet_cluster` / `undet_yield` (`Runs.py` lines 845–851). -/
def undetOf (nr : LaneNR) : Int × Int :=
  (nr.totalLaneCluster - nr.totalSampleCluster, nr.totalLaneYield - nr.totalSampleYield)

/-- Write the residual undetermined numbers into the default-project
rows of complex lanes (`Runs.py` lines 854–861). -/
def applyUndet (summary : List (PyStr × LaneNR)) (complexKeys : List PyStr)
    (rows : List BarcodeRow) : List BarcodeRow :=
  rows.map fun e =>
    if e.project == "default".data && complexKeys.contains e.lane then
      match dictGet summary e.lane with
      | none => e
      | some nr => { e with pfClusters := (undetOf nr).1, yieldMb := (undetOf nr).2 }
    else e

/-- The fake-index NoIndex fix-up (`Runs.py` lines 864–879): attribute
each noindex lane's Undetermined row to that lane's (project, sample)
pair and drop the lane's other rows. -/
def noindexFixRows (noidx : List PyStr) (indexCycles : Nat × Nat)
    (rows : List BarcodeRow) : List BarcodeRow :=
  if noidx ≠ [] ∧ indexCycles ≠ (0, 0) then
    let lps := rows.foldl (fun acc e =>
      if noidx.contains e.lane && !(e.sample == "Undetermined".data) then
        dictSet e.lane (e.project, e.sample) acc
      else acc) []
    rows.filterMap fun e =>
      if noidx.contains e.lane && e.sample == "Undetermined".data then
        match dictGet lps e.lane with
        | some ps => some { e with project := ps.1, sample := ps.2 }
        | none => some e
      else if noidx.contains e.lane then none
      else some e
  else rows

/-- The trailing `_S<N>` trim for BCL Convert SmartSeq3 sample names
(`Runs.py` lines 882–884). -/
def trimSuffixRows (rows : List BarcodeRow) : List BarcodeRow :=
  rows.map fun e =>
    if pyInStr "_S".data e.sample then
      { e with sample := List.intercalate ['_'] ((e.sample.splitOn '_').take 2) }
    else e

def pyLower (s : PyStr) : PyStr := s.map Char.toLower

def strLtB : PyStr → PyStr → Bool
  | [], [] => false
  | [], _ :: _ => true
  | _ :: _, [] => false
  | c :: cs, d :: ds => if c < d then true else if d < c then false else strLtB cs ds

/-- The sort key comparison `(lane.lower(), sample)`. -/
def rowKeyLe (a b : BarcodeRow) : Bool :=
  strLtB (pyLower a.lane) (pyLower b.lane) ||
    (pyLower a.lane == pyLower b.lane &&
      (strLtB a.sample b.sample || a.sample == b.sample))

def sortRows (rows : List BarcodeRow) : List BarcodeRow :=
  rows.mergeSort rowKeyLe

/-- The `NumberReads_Summary` dict after both passes. -/
def numberReadsSummary (laneReports : List (List LaneRow))
    (barcodeReports : List (List BarcodeRow)) (complexKeys : List PyStr) :
    List (PyStr × LaneNR) :=
  (collapseUndet complexKeys [] (mergeBarcodeReports barcodeReports)).foldl
    addSampleTotals (buildLaneTotals (mergeLaneReports laneReports))

/-- The merged `laneBarcode.html` Lane Summary rows produced by
`_fix_html_reports_for_complex_lanes`. -/
def fixedBarcodeRows (laneReports : List (List LaneRow))
    (barcodeReports : List (List BarcodeRow)) (complexKeys noidx : List PyStr)
    (indexCycles : Nat × Nat) : List BarcodeRow :=
  let rows2 := collapseUndet complexKeys [] (mergeBarcodeReports barcodeReports)
  let summary := numberReadsSummary laneReports barcodeReports complexKeys
  sortRows (trimSuffixRows (noindexFixRows noidx indexCycles
    (applyUndet summary complexKeys rows2)))

/-! ### `_fix_demultiplexingstats_xml_dir` (`Runs.py` lines 908–1178)

`Stats.json` documents are modelled with the fields the merge reads or
writes; `DemuxResults` entries and `ReadInfosForLanes` entries are only
moved around wholesale, so they carry just enough structure to be
distinguished. The `NumberReads_Summary` values come from the HTML step
(`numberReadsSummary`). -/

/-- The four `ReadMetrics` fields the merge zeroes. -/
structure ReadMetrics where
  qualityScoreSum : Int
  trimmedBases : Int
  yieldBases : Int
  yieldQ30 : Int
  deriving DecidableEq, Repr

/-- A `ConversionResults[].Undetermined` block. -/
structure UndetInfo where
  numberReads : Int
  yieldBases : Int
  readMetrics : List ReadMetrics
  deriving DecidableEq, Repr

/-- One `DemuxResults` entry (moved wholesale by the merge; only
`NumberReads` is ever written, by the NoIndex fix-up). -/
structure DemuxResult where
  sampleId : PyStr
  numberReads : Int
  deriving DecidableEq, Repr

/-- One `ConversionResults` entry. -/
structure ConvResult where
  laneNumber : Nat
  demuxResults : List DemuxResult
  undetermined : Option UndetInfo
  deriving DecidableEq, Repr

/-- One `UnknownBarcodes` entry: a lane and its barcode→count dict. -/
structure UnknownLane where
  lane : Nat
  barcodes : List (PyStr × Int)
  deriving DecidableEq, Repr

/-- One sub-demultiplexing `Stats.json` (`ReadInfosForLanes` entries are
identified by their `LaneNumber`). -/
structure StatsJson where
  conversionResults : List ConvResult
  readInfosForLanes : List Nat
  unknownBarcodes : List UnknownLane
  deriving DecidableEq, Repr

/-- `idx.split("+")[0] if "+" in idx else idx`. -/
def ubIdx1 (idx : PyStr) : PyStr :=
  if '+' ∈ idx then (idx.splitOn '+').headD [] else idx

/-- `idx.split("+")[1] if "+" in idx else ""`. -/
def ubIdx2 (idx : PyStr) : PyStr :=
  if '+' ∈ idx then ((idx.splitOn '+')[1]?).getD [] else []

/-- `comparepart`: the sample index itself when it is not longer than the
unknown-barcode part, else its prefix of that part's length. -/
def cmpPart (sIdx ub : PyStr) : PyStr :=
  if pyLen sIdx ≤ pyLen ub then sIdx else sIdx.take (pyLen ub)

/-- One sample row of another sub-samplesheet matches one unknown
barcode (`Runs.py` lines 1053–1137). In the `sample_idx2`-only branch the
source reads `comparepart_idx1`, a variable left over from a previous
loop iteration (or unbound); the theorems below assume every row has a
nonempty `index`, which never reaches that branch, and the branch is
modelled as no match. -/
def rowMatchesUnknown (sIdx1 sIdx2 idx : PyStr) : Bool :=
  let ub1 := ubIdx1 idx
  let ub2 := ubIdx2 idx
  if sIdx1 ≠ [] ∧ sIdx2 ≠ [] then
    cmpPart sIdx1 ub1 == ub1.take (pyLen (cmpPart sIdx1 ub1)) &&
      cmpPart sIdx2 ub2 == ub2.take (pyLen (cmpPart sIdx2 ub2))
  else if sIdx1 ≠ [] then
    cmpPart sIdx1 ub1 == ub1.take (pyLen (cmpPart sIdx1 ub1))
  else false

/-- `del full_list_unknownbarcodes["Barcodes"][idx]`. -/
def delBarcode (bs : List (PyStr × Int)) (k : PyStr) : List (PyStr × Int) :=
  bs.eraseP (fun p => p.1 == k)

/-- Process one sample row against the current barcode dict: iterate a
snapshot of the keys and delete each matching one. -/
def applyRowRemoval (bs : List (PyStr × Int)) (sIdx1 sIdx2 : PyStr) :
    List (PyStr × Int) :=
  (bs.map Prod.fst).foldl
    (fun acc idx => if rowMatchesUnknown sIdx1 sIdx2 idx then delBarcode acc idx else acc) bs

/-- Remove every unknown barcode matched by a sample row of another
sub-samplesheet covering the lane (rows in samplesheet order). -/
def removeAssigned (rows : List (PyStr × PyStr)) (bs : List (PyStr × Int)) :
    List (PyStr × Int) :=
  rows.foldl (fun acc row => applyRowRemoval acc row.1 row.2) bs

/-- The `(index, index2)` pairs of the rows of lane `laneStr` in every
sub-samplesheet other than `did`, in samplesheet order. -/
def otherLaneRows (sheets : List SubSheet) (did laneStr : PyStr) :
    List (PyStr × PyStr) :=
  (sheets.filter (fun sh => !(sh.demuxId == did))).flatMap fun sh =>
    (sh.rows.filter (fun r => r.lane == laneStr)).map fun r => (r.index, r.index2)

/-- Decide one `UnknownBarcodes` entry of the file of sub-demux `did`
(`Runs.py` lines 1026–1145): simple lanes pass through, a complex lane
contributes only from its priority demux, after the removal of barcodes
claimed by samples of the other sub-samplesheets; other lanes vanish. -/
def processUnknownLane (sheets : List SubSheet) (simpleL : List (PyStr × PyStr))
    (complexSel : List (PyStr × (PyStr × (Nat × Nat)))) (did : PyStr)
    (ub : UnknownLane) : Option UnknownLane :=
  if (simpleL.map Prod.fst).contains (natToStr ub.lane) then some ub
  else
    match complexSel.find? (fun p => p.1 == natToStr ub.lane) with
    | some sel =>
      if sel.2.1 == did then
        some { ub with
          barcodes := removeAssigned (otherLaneRows sheets did (natToStr ub.lane)) ub.barcodes }
      else none
    | none => none

/-- Zero the written-over `ReadMetrics` fields of the Undetermined block
and set its `NumberReads`/`Yield` to the residual values
(`Runs.py` lines 960–1007); `twoDataReads` tells whether the run has two
non-index reads (then `ReadMetrics[1]` is zeroed as well). -/
def fixUndetInfo (vals : Int × Int) (twoDataReads : Bool) (u : UndetInfo) : UndetInfo :=
  let rms := u.readMetrics.set 0 ⟨0, 0, 0, 0⟩
  let rms := if twoDataReads then rms.set 1 ⟨0, 0, 0, 0⟩ else rms
  ⟨vals.1, vals.2 * 1000000, rms⟩

/-- Replace the first accumulated entry of the lane: extend its
`DemuxResults` with the incoming ones and overwrite its `Undetermined`
with the fixed block (`Runs.py` lines 1008–1020). -/
def updateConv (cr : ConvResult) (fixedU : Option UndetInfo) :
    List ConvResult → List ConvResult
  | [] => []
  | e :: rest =>
    if e.laneNumber = cr.laneNumber then
      { e with demuxResults := e.demuxResults ++ cr.demuxResults,
               undetermined := fixedU } :: rest
    else e :: updateConv cr fixedU rest

/-- Merge one incoming `ConversionResults` entry (`lanesPresent` is the
lane list of the accumulator computed once per file). -/
def mergeConvEntry (complexKeys : List PyStr) (summary : List (PyStr × LaneNR))
    (twoDataReads : Bool) (lanesPresent : List Nat)
    (acc : List ConvResult) (cr : ConvResult) : List ConvResult :=
  if cr.laneNumber ∈ lanesPresent ∧ natToStr cr.laneNumber ∈ complexKeys then
    let vals :=
      match dictGet summary (natToStr cr.laneNumber) with
      | some nr => undetOf nr
      | none => (0, 0)
    updateConv cr (cr.undetermined.map (fixUndetInfo vals twoDataReads)) acc
  else acc ++ [cr]

/-- The accumulator `stats_list`. -/
structure StatsAcc where
  conversionResults : List ConvResult
  readInfosForLanes : List Nat
  unknownBarcodes : List UnknownLane
  deriving DecidableEq, Repr

/-- Process one `(demux_id, Stats.json)` file into `stats_list`. -/
def processStatsFile (sheets : List SubSheet) (simpleL : List (PyStr × PyStr))
    (complexSel : List (PyStr × (PyStr × (Nat × Nat))))
    (summary : List (PyStr × LaneNR)) (twoDataReads : Bool)
    (acc : Option StatsAcc) (file : PyStr × StatsJson) : StatsAcc :=
  let did := file.1
  let data := file.2
  let newUnknowns := data.unknownBarcodes.filterMap
    (processUnknownLane sheets simpleL complexSel did)
  match acc with
  | none =>
    ⟨data.conversionResults, data.readInfosForLanes, newUnknowns⟩
  | some st =>
    let lanesPresent := st.conversionResults.map (·.laneNumber)
    let newRIs := data.readInfosForLanes.filter (fun l => l ∉ lanesPresent)
    let newConv := data.conversionResults.foldl
      (mergeConvEntry (complexSel.map Prod.fst) summary twoDataReads lanesPresent)
      st.conversionResults
    ⟨newConv, st.readInfosForLanes ++ newRIs, st.unknownBarcodes ++ newUnknowns⟩

/-- The fake-index NoIndex fix-up on the merged `Stats.json`
(`Runs.py` lines 1147–1157). -/
def noindexFixStats (noidx : List PyStr) (indexCycles : Nat × Nat)
    (st : StatsAcc) : StatsAcc :=
  if noidx ≠ [] ∧ indexCycles ≠ (0, 0) then
    { st with
      conversionResults := st.conversionResults.map fun e =>
        if natToStr e.laneNumber ∈ noidx then
          { e with
            demuxResults :=
              match e.undetermined with
              | some u =>
                match e.demuxResults with
                | d0 :: rest => { d0 with numberReads := u.numberReads } :: rest
                | [] => []
              | none => e.demuxResults,
            undetermined := none }
        else e,
      unknownBarcodes := st.unknownBarcodes.map fun u =>
        if natToStr u.lane ∈ noidx then { u with barcodes := [("unknown".data, 1)] }
        else u }
  else st

/-- The complete `Stats.json` merge over all sub-demultiplexing files. -/
def mergeStats (sheets : List SubSheet) (simpleL : List (PyStr × PyStr))
    (complexSel : List (PyStr × (PyStr × (Nat × Nat))))
    (summary : List (PyStr × LaneNR)) (twoDataReads : Bool)
    (noidx : List PyStr) (indexCycles : Nat × Nat)
    (files : List (PyStr × StatsJson)) : Option StatsAcc :=
  (files.foldl (fun acc f =>
    some (processStatsFile sheets simpleL complexSel summary twoDataReads acc f)) none).map
    (noindexFixStats noidx indexCycles)

theorem delBarcode_of_nodup (bs : List (PyStr × Int)) (k : PyStr)
    (hnd : (bs.map Prod.fst).Nodup) :
    delBarcode bs k = bs.filter (fun p => !(p.1 == k)) := by
  induction bs with
  | nil => rfl
  | cons p rest ih =>
    rw [List.map_cons] at hnd
    have hnd' := List.nodup_cons.mp hnd
    unfold delBarcode at *
    by_cases hk : p.1 == k
    · rw [List.eraseP_cons, hk, cond_true, List.filter_cons_of_neg (by simp [hk])]
      have : ∀ q ∈ rest, (q.1 == k) = false := by
        intro q hq
        have hpk : p.1 = k := by simpa using hk
        by_contra hqk
        simp only [Bool.not_eq_false, beq_iff_eq] at hqk
        exact hnd'.1 (List.mem_map.mpr ⟨q, hq, by rw [hqk, ← hpk]⟩)
      rw [List.filter_eq_self.mpr (by intro q hq; simpa using this q hq)]
    · rw [List.eraseP_cons, (Bool.not_eq_true _).mp hk, cond_false,
        List.filter_cons_of_pos (by simpa using hk)]
      rw [ih hnd'.2]

theorem delBarcode_nodup (bs : List (PyStr × Int)) (k : PyStr)
    (hnd : (bs.map Prod.fst).Nodup) :
    ((delBarcode bs k).map Prod.fst).Nodup := by
  rw [delBarcode_of_nodup bs k hnd]
  exact ((List.filter_sublist _).map Prod.fst).nodup hnd

theorem keyFoldDel (m : PyStr → Bool) (ks : List PyStr) :
    ∀ bs : List (PyStr × Int), (bs.map Prod.fst).Nodup →
      ks.foldl (fun acc idx => if m idx then delBarcode acc idx else acc) bs =
        bs.filter (fun p => !(ks.contains p.1 && m p.1)) := by
  induction ks with
  | nil =>
    intro bs _
    simp
  | cons k rest ih =>
    intro bs hnd
    simp only [List.foldl_cons]
    by_cases hm : m k = true
    · rw [if_pos hm, ih _ (delBarcode_nodup bs k hnd), delBarcode_of_nodup bs k hnd,
        List.filter_filter]
      apply List.filter_congr
      intro p _
      by_cases hpk : p.1 == k
      · have hpe : p.1 = k := by simpa using hpk
        simp [hpe, hm]
      · have hne : p.1 ≠ k := by simpa using hpk
        simp [hne, List.contains_cons]
    · rw [if_neg (by simpa using hm), ih _ hnd]
      apply List.filter_congr
      intro p _
      by_cases hpk : p.1 == k
      · have hpe : p.1 = k := by simpa using hpk
        have : m p.1 = false := by rw [hpe]; simpa using hm
        simp [this, List.contains_cons]
      · have hne : p.1 ≠ k := by simpa using hpk
        simp [hne, List.contains_cons]

theorem applyRowRemoval_eq_filter (bs : List (PyStr × Int)) (s1 s2 : PyStr)
    (hnd : (bs.map Prod.fst).Nodup) :
    applyRowRemoval bs s1 s2 = bs.filter (fun p => !rowMatchesUnknown s1 s2 p.1) := by
  unfold applyRowRemoval
  rw [keyFoldDel _ _ bs hnd]
  apply List.filter_congr
  intro p hp
  have : (bs.map Prod.fst).contains p.1 = true := by
    simp only [List.contains_eq_any_beq, List.any_eq_true]
    exact ⟨p.1, List.mem_map.mpr ⟨p, hp, rfl⟩, by simp⟩
  rw [this, Bool.true_and]

theorem removeAssigned_eq_filter (rows : List (PyStr × PyStr)) :
    ∀ bs : List (PyStr × Int), (bs.map Prod.fst).Nodup →
      removeAssigned rows bs =
        bs.filter (fun p => !(rows.any (fun r => rowMatchesUnknown r.1 r.2 p.1))) := by
  induction rows with
  | nil =>
    intro bs _
    simp [removeAssigned]
  | cons r rest ih =>
    intro bs hnd
    show removeAssigned rest (applyRowRemoval bs r.1 r.2) = _
    have hnd1 : ((bs.filter (fun p => !rowMatchesUnknown r.1 r.2 p.1)).map Prod.fst).Nodup :=
      ((List.filter_sublist _).map Prod.fst).nodup hnd
    rw [show removeAssigned rest (applyRowRemoval bs r.1 r.2) =
        removeAssigned rest (bs.filter (fun p => !rowMatchesUnknown r.1 r.2 p.1)) from by
      rw [applyRowRemoval_eq_filter bs r.1 r.2 hnd]]
    rw [ih _ hnd1, List.filter_filter]
    apply List.filter_congr
    intro p _
    simp [List.any_cons, Bool.not_or, Bool.and_comm]

theorem anyCongr {α : Type} {l : List α} {f g : α → Bool}
    (h : ∀ x ∈ l, f x = g x) : l.any f = l.any g := by
  induction l with
  | nil => rfl
  | cons a t ih =>
    simp only [List.any_cons, h a (List.mem_cons_self a t),
      ih (fun x hx => h x (List.mem_cons_of_mem a hx))]

theorem rowMatchesUnknown_six_eight (s1 idx : PyStr) (h1 : pyLen s1 = 6)
    (h8 : pyLen idx = 8) (hp : '+' ∉ idx) :
    rowMatchesUnknown s1 [] idx = (s1 == idx.take 6) := by
  have hs1 : s1 ≠ [] := by
    intro h
    rw [h] at h1
    simp [pyLen] at h1
  unfold rowMatchesUnknown
  simp only [ubIdx1, ubIdx2, if_neg hp]
  rw [if_neg (by simp), if_pos hs1]
  unfold cmpPart
  rw [h1, h8, if_pos (by norm_num), h1]

/-- C3: for a complex lane whose priority demux is `did`, the merged
`UnknownBarcodes` list of the lane is the priority file's list with every
barcode removed whose 6-base prefix equals a sample index of the other
sub-samplesheets covering the lane, under the claim's scenario (sample
rows single-indexed with 6 bases, unknown barcodes 8 bases without `+`);
and between a 6-length and an 8-length single-index sub-job the priority
demux chosen by `_classify_lanes` is the 8-length one. -/
theorem unknown_prefix_subtraction (sheets : List SubSheet)
    (simpleL : List (PyStr × PyStr))
    (complexSel : List (PyStr × (PyStr × (Nat × Nat))))
    (did : PyStr) (ub : UnknownLane) (sel : PyStr × (PyStr × (Nat × Nat)))
    (hsimple : (simpleL.map Prod.fst).contains (natToStr ub.lane) = false)
    (hfind : complexSel.find? (fun p => p.1 == natToStr ub.lane) = some sel)
    (hsel : sel.2.1 = did)
    (hnd : (ub.barcodes.map Prod.fst).Nodup)
    (hrows : ∀ r ∈ otherLaneRows sheets did (natToStr ub.lane),
      pyLen r.1 = 6 ∧ r.2 = [])
    (hbs : ∀ p ∈ ub.barcodes, pyLen p.1 = 8 ∧ '+' ∉ p.1) :
    (processUnknownLane sheets simpleL complexSel did ub =
      some ⟨ub.lane, ub.barcodes.filter (fun p =>
        !((otherLaneRows sheets did (natToStr ub.lane)).any
          (fun r => r.1 == p.1.take 6)))⟩) ∧
    ∀ d6 d8 : PyStr, pickPriority [(d6, (6, 0)), (d8, (8, 0))] = some (d8, (8, 0)) := by
  constructor
  · have hrm : removeAssigned (otherLaneRows sheets did (natToStr ub.lane)) ub.barcodes =
        ub.barcodes.filter (fun p =>
          !((otherLaneRows sheets did (natToStr ub.lane)).any
            (fun r => r.1 == p.1.take 6))) := by
      rw [removeAssigned_eq_filter _ _ hnd]
      apply List.filter_congr
      intro p hp
      have h8 := (hbs p hp).1
      have hpl := (hbs p hp).2
      have : ((otherLaneRows sheets did (natToStr ub.lane)).any
            (fun r => rowMatchesUnknown r.1 r.2 p.1)) =
          ((otherLaneRows sheets did (natToStr ub.lane)).any
            (fun r => r.1 == p.1.take 6)) := by
        apply anyCongr
        intro r hr
        have h6 := (hrows r hr).1
        have h2 := (hrows r hr).2
        rw [h2, rowMatchesUnknown_six_eight r.1 p.1 h6 h8 hpl]
      rw [this]
    unfold processUnknownLane
    rw [hsimple]
    simp only [Bool.false_eq_true, if_false]
    rw [hfind]
    have hbeq : (sel.2.1 == did) = true := by rw [hsel]; simp
    simp only [hbeq, if_true]
    rw [hrm]
  · intro d6 d8
    rfl

/-- Witness for `unknown_prefix_subtraction`: the lane-1 scenario with a
6-base sample index `AAAAAA` in demux 0 and unknown 8-base barcodes in the
priority demux 1: `AAAAAACC` is removed, `GGGGGGGG` is kept. -/
theorem unknown_prefix_subtraction_witness :
    processUnknownLane
      [⟨"0".data, [⟨"1".data, "AAAAAA".data, []⟩]⟩,
       ⟨"1".data, [⟨"1".data, "AAAAAAAA".data, []⟩]⟩]
      [] [("1".data, ("1".data, (8, 0)))] "1".data
      ⟨1, [("AAAAAACC".data, 10), ("GGGGGGGG".data, 5)]⟩ =
      some ⟨1, [("GGGGGGGG".data, 5)]⟩ := by
  have h := (unknown_prefix_subtraction
      [⟨"0".data, [⟨"1".data, "AAAAAA".data, []⟩]⟩,
       ⟨"1".data, [⟨"1".data, "AAAAAAAA".data, []⟩]⟩]
      [] [("1".data, ("1".data, (8, 0)))] "1".data
      ⟨1, [("AAAAAACC".data, 10), ("GGGGGGGG".data, 5)]⟩
      ("1".data, ("1".data, (8, 0)))
      rfl rfl rfl (by decide) (by decide) (by decide)).1
  rw [h]
  rfl

theorem processUnknownLane_lane (sheets : List SubSheet)
    (simpleL : List (PyStr × PyStr))
    (complexSel : List (PyStr × (PyStr × (Nat × Nat)))) (did : PyStr)
    (ub u : UnknownLane)
    (h : processUnknownLane sheets simpleL complexSel did ub = some u) :
    u.lane = ub.lane := by
  unfold processUnknownLane at h
  split at h
  · injection h with h
    rw [← h]
  · split at h
    · split at h
      · injection h with h
        rw [← h]
      · exact absurd h (by simp)
    · exact absurd h (by simp)

theorem processUnknownLane_complex (sheets : List SubSheet)
    (simpleL : List (PyStr × PyStr))
    (complexSel : List (PyStr × (PyStr × (Nat × Nat)))) (did : PyStr)
    (ub u : UnknownLane)
    (h : processUnknownLane sheets simpleL complexSel did ub = some u)
    (hsimple : (simpleL.map Prod.fst).contains (natToStr ub.lane) = false) :
    ∃ sel, complexSel.find? (fun p => p.1 == natToStr ub.lane) = some sel ∧
      sel.2.1 = did ∧
      u = ⟨ub.lane,
        removeAssigned (otherLaneRows sheets did (natToStr ub.lane)) ub.barcodes⟩ := by
  unfold processUnknownLane at h
  rw [hsimple] at h
  simp only [Bool.false_eq_true, if_false] at h
  cases hfind : complexSel.find? (fun p => p.1 == natToStr ub.lane) with
  | none =>
    rw [hfind] at h
    exact absurd h (by simp)
  | some sel =>
    rw [hfind] at h
    dsimp only at h
    by_cases hdid : (sel.2.1 == did) = true
    · rw [if_pos hdid] at h
      injection h with h
      exact ⟨sel, rfl, by simpa using hdid, h.symm⟩
    · rw [if_neg hdid] at h
      exact absurd h (by simp)

theorem statsFold_unknown_src (sheets : List SubSheet)
    (simpleL : List (PyStr × PyStr))
    (complexSel : List (PyStr × (PyStr × (Nat × Nat))))
    (summary : List (PyStr × LaneNR)) (two : Bool) :
    ∀ (files : List (PyStr × StatsJson)) (start : Option StatsAcc) (st : StatsAcc),
      files.foldl (fun acc f =>
        some (processStatsFile sheets simpleL complexSel summary two acc f)) start =
        some st →
      ∀ u ∈ st.unknownBarcodes,
        (∃ st0, start = some st0 ∧ u ∈ st0.unknownBarcodes) ∨
        ∃ file, file ∈ files ∧ ∃ ub0, ub0 ∈ file.2.unknownBarcodes ∧
          processUnknownLane sheets simpleL complexSel file.1 ub0 = some u := by
  intro files
  induction files with
  | nil =>
    intro start st h u hu
    simp only [List.foldl_nil] at h
    exact Or.inl ⟨st, h, hu⟩
  | cons f rest ih =>
    intro start st h u hu
    simp only [List.foldl_cons] at h
    rcases ih _ st h u hu with ⟨st0, hst0, hmem⟩ | ⟨file, hfile, hrest⟩
    · injection hst0 with hst0
      rw [← hst0] at hmem
      cases start with
      | none =>
        simp only [processStatsFile] at hmem
        rcases List.mem_filterMap.mp hmem with ⟨ub0, hub0, hproc⟩
        exact Or.inr ⟨f, List.mem_cons_self f rest, ub0, hub0, hproc⟩
      | some s1 =>
        simp only [processStatsFile] at hmem
        rcases List.mem_append.mp hmem with hl | hr
        · exact Or.inl ⟨s1, rfl, hl⟩
        · rcases List.mem_filterMap.mp hr with ⟨ub0, hub0, hproc⟩
          exact Or.inr ⟨f, List.mem_cons_self f rest, ub0, hub0, hproc⟩
    · exact Or.inr ⟨file, List.mem_cons_of_mem f hfile, hrest⟩

theorem noindexFixStats_unknown (noidx : List PyStr) (ic : Nat × Nat)
    (st : StatsAcc) (u : UnknownLane)
    (hu : u ∈ (noindexFixStats noidx ic st).unknownBarcodes)
    (hn : natToStr u.lane ∉ noidx) : u ∈ st.unknownBarcodes := by
  unfold noindexFixStats at hu
  split at hu
  · rcases List.mem_map.mp hu with ⟨u1, hu1, hg⟩
    by_cases h1 : natToStr u1.lane ∈ noidx
    · rw [if_pos h1] at hg
      have hl : u.lane = u1.lane := by rw [← hg]
      rw [hl] at hn
      exact absurd h1 hn
    · rw [if_neg h1] at hg
      rw [← hg]
      exact hu1
  · exact hu

theorem mergeStats_split (sheets : List SubSheet) (simpleL : List (PyStr × PyStr))
    (complexSel : List (PyStr × (PyStr × (Nat × Nat))))
    (summary : List (PyStr × LaneNR)) (two : Bool) (noidx : List PyStr)
    (ic : Nat × Nat) (files : List (PyStr × StatsJson)) (st : StatsAcc)
    (h : mergeStats sheets simpleL complexSel summary two noidx ic files = some st) :
    ∃ st1, files.foldl (fun acc f =>
        some (processStatsFile sheets simpleL complexSel summary two acc f)) none =
        some st1 ∧
      st = noindexFixStats noidx ic st1 := by
  unfold mergeStats at h
  cases hf : files.foldl (fun acc f =>
      some (processStatsFile sheets simpleL complexSel summary two acc f)) none with
  | none =>
    rw [hf] at h
    exact absurd h (by simp)
  | some st1 =>
    rw [hf] at h
    simp only [Option.map_some'] at h
    exact ⟨st1, rfl, (Option.some_inj.mp h).symm⟩

/-- Concrete two-sub-demultiplexing scenario: one complex lane `1`
covered by a 6-base single-index demux `0` and an 8-base single-index
demux `1`. -/
def cexSheets : List SubSheet :=
  [⟨"0".data, [⟨"1".data, "AAAAAA".data, []⟩]⟩,
   ⟨"1".data, [⟨"1".data, "CCCCCCCC".data, []⟩]⟩]

def cexLaneReports : List (List LaneRow) :=
  [[⟨"1".data, 100, 50⟩], [⟨"1".data, 100, 50⟩]]

def cexBarcodeReports : List (List BarcodeRow) :=
  [[⟨"1".data, "P".data, "s1".data, "AAAAAA".data, 60, 30⟩,
    ⟨"1".data, "default".data, "Undetermined".data, "unknown".data, 45, 22⟩],
   [⟨"1".data, "P".data, "s2".data, "CCCCCCCC".data, 25, 12⟩,
    ⟨"1".data, "default".data, "Undetermined".data, "unknown".data, 70, 35⟩]]

def cexComplexKeys : List PyStr := ["1".data]

def cexSel : List (PyStr × (PyStr × (Nat × Nat))) := [("1".data, ("1".data, (8, 0)))]

def cexFiles : List (PyStr × StatsJson) :=
  [("0".data, ⟨[⟨1, [⟨"s1".data, 60⟩], some ⟨45, 22000000, [⟨9, 9, 9, 9⟩]⟩⟩], [1],
      [⟨1, [("AAAAAATT".data, 7), ("GGGGGGGG".data, 5)]⟩]⟩),
   ("1".data, ⟨[⟨1, [⟨"s2".data, 25⟩], some ⟨70, 35000000, [⟨9, 9, 9, 9⟩]⟩⟩], [1],
      [⟨1, [("AAAAAACC".data, 3), ("GGGGGGGG".data, 5)]⟩]⟩)]

/-- The `Stats.json` merge of `cexFiles`. -/
def cexStats : StatsAcc :=
  ⟨[⟨1, [⟨"s1".data, 60⟩, ⟨"s2".data, 25⟩], some ⟨15, 8000000, [⟨0, 0, 0, 0⟩]⟩⟩],
   [1], [⟨1, [("GGGGGGGG".data, 5)]⟩]⟩

/-- C2 (amended): the sub-job selected by `_classify_lanes` as a complex
lane's priority demux is a member of the lane's demux list of MAXIMAL
rank — dual-index (no zero length) beats single-index, and within one
category a LARGER index-length sum wins, so the authoritative sub-job is
the highest-index-length one, not the lowest; and in the merged
`Stats.json` every `UnknownBarcodes` entry of a non-simple, non-noindex
lane originates from a file whose demux id is the one keying
`complex_lanes` for that lane, with the other sub-samplesheets' assigned
barcodes removed. -/
theorem unknown_barcodes_authoritative :
    (∀ (ldi : List (PyStr × List (PyStr × (Nat × Nat)))) (lane : PyStr)
        (sel : PyStr × (Nat × Nat)), (lane, sel) ∈ complexLanes ldi →
      ∃ ds, (lane, ds) ∈ ldi ∧ 2 ≤ ds.length ∧ sel ∈ ds ∧
        ∀ v ∈ ds, rankLE v.2 sel.2) ∧
    (∀ (sheets : List SubSheet) (simpleL : List (PyStr × PyStr))
        (complexSel : List (PyStr × (PyStr × (Nat × Nat))))
        (summary : List (PyStr × LaneNR)) (two : Bool) (noidx : List PyStr)
        (ic : Nat × Nat) (files : List (PyStr × StatsJson)) (st : StatsAcc)
        (u : UnknownLane),
      mergeStats sheets simpleL complexSel summary two noidx ic files = some st →
      u ∈ st.unknownBarcodes →
      (simpleL.map Prod.fst).contains (natToStr u.lane) = false →
      natToStr u.lane ∉ noidx →
      ∃ sel file ub0,
        complexSel.find? (fun p => p.1 == natToStr u.lane) = some sel ∧
        sel.2.1 = file.1 ∧ file ∈ files ∧ ub0 ∈ file.2.unknownBarcodes ∧
        u = ⟨ub0.lane,
          removeAssigned (otherLaneRows sheets file.1 (natToStr ub0.lane))
            ub0.barcodes⟩) := by
  constructor
  · intro ldi lane sel hmem
    rcases List.mem_filterMap.mp hmem with ⟨p, hp, hfp⟩
    by_cases hlen : 2 ≤ p.2.length
    · rw [if_pos hlen] at hfp
      rcases Option.map_eq_some'.mp hfp with ⟨e, hpick, heq⟩
      have h1 : p.1 = lane := congrArg Prod.fst heq
      have h2 : e = sel := congrArg Prod.snd heq
      obtain ⟨hin, hrank⟩ := pickPriority_spec p.2 e hpick
      refine ⟨p.2, ?_, hlen, ?_, ?_⟩
      · rw [← h1]
        exact hp
      · rw [← h2]
        exact hin
      · intro v hv
        rw [← h2]
        exact hrank v hv
    · rw [if_neg hlen] at hfp
      exact absurd hfp (by simp)
  · intro sheets simpleL complexSel summary two noidx ic files st u
      hmerge hmem hsimple hnoidx
    rcases mergeStats_split sheets simpleL complexSel summary two noidx ic files st
      hmerge with ⟨st1, hf, hfix⟩
    have hmem1 : u ∈ st1.unknownBarcodes :=
      noindexFixStats_unknown noidx ic st1 u (hfix ▸ hmem) hnoidx
    rcases statsFold_unknown_src sheets simpleL complexSel summary two files none st1
        hf u hmem1 with ⟨st0, h0, _⟩ | ⟨file, hfile, ub0, hub0, hproc⟩
    · exact absurd h0 (by simp)
    · have hlane := processUnknownLane_lane _ _ _ _ _ _ hproc
      have hsimple0 : (simpleL.map Prod.fst).contains (natToStr ub0.lane) = false := by
        rw [← hlane]
        exact hsimple
      rcases processUnknownLane_complex _ _ _ _ _ _ hproc hsimple0 with
        ⟨sel, hfind, hdid, hu⟩
      refine ⟨sel, file, ub0, ?_, hdid, hfile, hub0, hu⟩
      rw [hlane]
      exact hfind

/-- Witness for `unknown_barcodes_authoritative`: in the 6-vs-8 scenario
the lane-1 `UnknownBarcodes` entry of the merged `Stats.json` comes from
the 8-length priority demux `1`, with the 6-base-prefix-claimed barcode
removed. -/
theorem unknown_barcodes_authoritative_witness :
    ∃ (sel : PyStr × (PyStr × (Nat × Nat))) (file : PyStr × StatsJson)
      (ub0 : UnknownLane),
      cexSel.find? (fun p => p.1 ==
        natToStr (⟨1, [("GGGGGGGG".data, 5)]⟩ : UnknownLane).lane) = some sel ∧
      sel.2.1 = file.1 ∧ file ∈ cexFiles ∧ ub0 ∈ file.2.unknownBarcodes ∧
      (⟨1, [("GGGGGGGG".data, 5)]⟩ : UnknownLane) = ⟨ub0.lane,
        removeAssigned (otherLaneRows cexSheets file.1 (natToStr ub0.lane))
          ub0.barcodes⟩ :=
  unknown_barcodes_authoritative.2 cexSheets [] cexSel
    (numberReadsSummary cexLaneReports cexBarcodeReports cexComplexKeys) false []
    (8, 0) cexFiles cexStats ⟨1, [("GGGGGGGG".data, 5)]⟩
    rfl (by simp [cexStats]) rfl (by simp)

/-- C2 fails as literally stated: lane `1` is covered by sub-jobs of
index lengths 6 (demux `0`) and 8 (demux `1`), and the demux that keys
`complex_lanes` — the authoritative one for `UnknownBarcodes` — is the
8-length sub-job, the HIGHEST index length, not the lowest. -/
theorem unknown_barcodes_authoritative_counterexample :
    laneDemuxIndexLengths cexSheets =
      [("1".data, [("0".data, (6, 0)), ("1".data, (8, 0))])] ∧
    complexLanes [("1".data, [("0".data, (6, 0)), ("1".data, (8, 0))])] =
      [("1".data, ("1".data, (8, 0)))] ∧
    6 + 0 < 8 + 0 := ⟨rfl, rfl, by decide⟩

/-- Spec-side: the sum of PF clusters over the real sample rows of one
lane (rows whose `Project` is not the literal `default`). -/
def specSampleClusterSum (lane : PyStr) (rows : List BarcodeRow) : Int :=
  ((rows.filter (fun e => e.lane == lane && !(e.project == "default".data))).map
    (·.pfClusters)).sum

/-- Spec-side: the sum of yields (Mbases) over the real sample rows of
one lane. -/
def specSampleYieldSum (lane : PyStr) (rows : List BarcodeRow) : Int :=
  ((rows.filter (fun e => e.lane == lane && !(e.project == "default".data))).map
    (·.yieldMb)).sum

theorem dictGet_dictSet_self {α : Type} (k : PyStr) (v : α) (d : List (PyStr × α)) :
    dictGet (dictSet k v d) k = some v := by
  induction d with
  | nil => simp [dictSet, dictGet, List.find?_cons]
  | cons p rest ih =>
    obtain ⟨k', v'⟩ := p
    unfold dictSet
    by_cases h : (k' == k) = true
    · rw [if_pos h]
      unfold dictGet
      simp only [List.find?_cons, h, cond_true, Option.map_some']
    · rw [if_neg h]
      have hf : (k' == k) = false := by simpa using h
      unfold dictGet at ih ⊢
      simp only [List.find?_cons, hf, cond_false]
      exact ih

theorem dictGet_dictSet_ne {α : Type} (ks kg : PyStr) (v : α) (d : List (PyStr × α))
    (h : (ks == kg) = false) :
    dictGet (dictSet ks v d) kg = dictGet d kg := by
  induction d with
  | nil =>
    simp only [dictSet, dictGet]
    simp only [List.find?_cons, h, cond_false, List.find?_nil]
  | cons p rest ih =>
    obtain ⟨k', v'⟩ := p
    unfold dictSet
    by_cases hk : (k' == ks) = true
    · rw [if_pos hk]
      unfold dictGet
      have hkg : (k' == kg) = false := by
        have hke : k' = ks := by simpa using hk
        rw [hke]
        exact h
      simp only [List.find?_cons, hkg, cond_false]
    · rw [if_neg hk]
      unfold dictGet at ih ⊢
      by_cases hkg : (k' == kg) = true
      · simp only [List.find?_cons, hkg, cond_true]
      · have hf : (k' == kg) = false := by simpa using hkg
        simp only [List.find?_cons, hf, cond_false]
        exact ih

theorem laneFold_untouched (rest : List LaneRow) (L : PyStr)
    (h : ∀ r ∈ rest, (r.lane == L) = false) :
    ∀ acc : List (PyStr × LaneNR), dictGet (rest.foldl (fun acc e =>
      dictSet e.lane (⟨e.pfClusters, e.yieldMb, 0, 0, false⟩ : LaneNR) acc) acc) L =
      dictGet acc L := by
  induction rest with
  | nil => intro acc; rfl
  | cons r t ih =>
    intro acc
    simp only [List.foldl_cons]
    rw [ih (fun x hx => h x (List.mem_cons_of_mem r hx)) _,
      dictGet_dictSet_ne _ _ _ _ (h r (List.mem_cons_self r t))]

theorem laneFoldLookup (rows : List LaneRow) :
    ∀ (acc : List (PyStr × LaneNR)) (row : LaneRow),
      (rows.map (·.lane)).Nodup → row ∈ rows →
      dictGet (rows.foldl (fun acc e =>
        dictSet e.lane ⟨e.pfClusters, e.yieldMb, 0, 0, false⟩ acc) acc) row.lane =
        some ⟨row.pfClusters, row.yieldMb, 0, 0, false⟩ := by
  induction rows with
  | nil =>
    intro _ _ _ h
    cases h
  | cons r rest ih =>
    intro acc row hnd hmem
    rw [List.map_cons] at hnd
    have hnd' := List.nodup_cons.mp hnd
    simp only [List.foldl_cons]
    rcases List.mem_cons.mp hmem with rfl | hmem'
    · have hne : ∀ x ∈ rest, (x.lane == row.lane) = false := by
        intro x hx
        by_contra hc
        simp only [Bool.not_eq_false, beq_iff_eq] at hc
        exact hnd'.1 (List.mem_map.mpr ⟨x, hx, hc⟩)
      rw [laneFold_untouched rest row.lane hne _]
      exact dictGet_dictSet_self _ _ _
    · exact ih _ row hnd'.2 hmem'

theorem addSampleTotals_other (acc : List (PyStr × LaneNR)) (e : BarcodeRow)
    (L : PyStr) (h : (e.lane == L) = false) :
    dictGet (addSampleTotals acc e) L = dictGet acc L := by
  unfold addSampleTotals
  cases hget : dictGet acc e.lane with
  | none => rfl
  | some nr =>
    dsimp only
    split
    · exact dictGet_dictSet_ne _ _ _ _ h
    · split
      · exact dictGet_dictSet_ne _ _ _ _ h
      · rfl

theorem specSums_cons_skip (L : PyStr) (e : BarcodeRow) (rest : List BarcodeRow)
    (h : (e.lane == L && !(e.project == "default".data)) = false) :
    specSampleClusterSum L (e :: rest) = specSampleClusterSum L rest ∧
    specSampleYieldSum L (e :: rest) = specSampleYieldSum L rest := by
  constructor
  · simp [specSampleClusterSum, List.filter_cons, h]
  · simp [specSampleYieldSum, List.filter_cons, h]

theorem specSums_cons_keep (L : PyStr) (e : BarcodeRow) (rest : List BarcodeRow)
    (h : (e.lane == L && !(e.project == "default".data)) = true) :
    specSampleClusterSum L (e :: rest) = e.pfClusters + specSampleClusterSum L rest ∧
    specSampleYieldSum L (e :: rest) = e.yieldMb + specSampleYieldSum L rest := by
  constructor
  · simp [specSampleClusterSum, List.filter_cons, h]
  · simp [specSampleYieldSum, List.filter_cons, h]

theorem sampleFold_true (L : PyStr) (rows : List BarcodeRow) :
    ∀ (acc : List (PyStr × LaneNR)) (c y sc sy : Int),
      dictGet acc L = some ⟨c, y, sc, sy, true⟩ →
      dictGet (rows.foldl addSampleTotals acc) L =
        some ⟨c, y, sc + specSampleClusterSum L rows,
          sy + specSampleYieldSum L rows, true⟩ := by
  induction rows with
  | nil =>
    intro acc c y sc sy h
    simpa [specSampleClusterSum, specSampleYieldSum] using h
  | cons e rest ih =>
    intro acc c y sc sy h
    simp only [List.foldl_cons]
    by_cases hl : (e.lane == L) = true
    · have hle : e.lane = L := by simpa using hl
      have hget : dictGet acc e.lane = some ⟨c, y, sc, sy, true⟩ := by
        rw [hle]
        exact h
      by_cases hd : (e.project == "default".data) = true
      · have hstep : addSampleTotals acc e = acc := by
          unfold addSampleTotals
          rw [hget]
          dsimp only
          rw [if_neg (by simp), if_neg (by simp [hd])]
        rw [hstep, ih acc c y sc sy h]
        obtain ⟨h1, h2⟩ := specSums_cons_skip L e rest (by simp [hd])
        rw [h1, h2]
      · have hstep : addSampleTotals acc e =
            dictSet e.lane ⟨c, y, sc + e.pfClusters, sy + e.yieldMb, true⟩ acc := by
          unfold addSampleTotals
          rw [hget]
          dsimp only
          rw [if_neg (by simp), if_pos (by simp [hd])]
        have hgot : dictGet
            (dictSet e.lane ⟨c, y, sc + e.pfClusters, sy + e.yieldMb, true⟩ acc) L =
            some ⟨c, y, sc + e.pfClusters, sy + e.yieldMb, true⟩ := by
          rw [hle]
          exact dictGet_dictSet_self _ _ _
        rw [hstep, ih _ c y (sc + e.pfClusters) (sy + e.yieldMb) hgot]
        obtain ⟨h1, h2⟩ := specSums_cons_keep L e rest (by simp [hl, hd])
        rw [h1, h2, add_assoc, add_assoc]
    · have h' : dictGet (addSampleTotals acc e) L = some ⟨c, y, sc, sy, true⟩ := by
        rw [addSampleTotals_other acc e L (by simpa using hl)]
        exact h
      rw [ih _ c y sc sy h']
      obtain ⟨h1, h2⟩ := specSums_cons_skip L e rest (by simp [hl])
      rw [h1, h2]

theorem sampleFold_false (L : PyStr) (rows : List BarcodeRow) :
    ∀ (acc : List (PyStr × LaneNR)) (c y : Int),
      dictGet acc L = some ⟨c, y, 0, 0, false⟩ →
      ∃ p : Bool, dictGet (rows.foldl addSampleTotals acc) L =
        some ⟨c, y, specSampleClusterSum L rows, specSampleYieldSum L rows, p⟩ := by
  induction rows with
  | nil =>
    intro acc c y h
    exact ⟨false, by simpa [specSampleClusterSum, specSampleYieldSum] using h⟩
  | cons e rest ih =>
    intro acc c y h
    simp only [List.foldl_cons]
    by_cases hl : (e.lane == L) = true
    · have hle : e.lane = L := by simpa using hl
      have hget : dictGet acc e.lane = some ⟨c, y, 0, 0, false⟩ := by
        rw [hle]
        exact h
      by_cases hd : (e.project == "default".data) = true
      · have hstep : addSampleTotals acc e = dictSet e.lane ⟨c, y, 0, 0, true⟩ acc := by
          unfold addSampleTotals
          rw [hget]
          dsimp only
          rw [if_pos (by simp), if_neg (by simp [hd])]
        have hgot : dictGet (dictSet e.lane ⟨c, y, 0, 0, true⟩ acc) L =
            some ⟨c, y, 0, 0, true⟩ := by
          rw [hle]
          exact dictGet_dictSet_self _ _ _
        refine ⟨true, ?_⟩
        rw [hstep, sampleFold_true L rest _ c y 0 0 hgot]
        obtain ⟨h1, h2⟩ := specSums_cons_skip L e rest (by simp [hd])
        rw [h1, h2, zero_add, zero_add]
      · have hstep : addSampleTotals acc e =
            dictSet e.lane ⟨c, y, e.pfClusters, e.yieldMb, true⟩ acc := by
          unfold addSampleTotals
          rw [hget]
          dsimp only
          rw [if_pos (by simp), if_pos (by simp [hd])]
        have hgot : dictGet (dictSet e.lane ⟨c, y, e.pfClusters, e.yieldMb, true⟩ acc) L =
            some ⟨c, y, e.pfClusters, e.yieldMb, true⟩ := by
          rw [hle]
          exact dictGet_dictSet_self _ _ _
        refine ⟨true, ?_⟩
        rw [hstep, sampleFold_true L rest _ c y e.pfClusters e.yieldMb hgot]
        obtain ⟨h1, h2⟩ := specSums_cons_keep L e rest (by simp [hl, hd])
        rw [h1, h2]
    · have h' : dictGet (addSampleTotals acc e) L = some ⟨c, y, 0, 0, false⟩ := by
        rw [addSampleTotals_other acc e L (by simpa using hl)]
        exact h
      rcases ih _ c y h' with ⟨p, hp⟩
      refine ⟨p, ?_⟩
      rw [hp]
      obtain ⟨h1, h2⟩ := specSums_cons_skip L e rest (by simp [hl])
      rw [h1, h2]

theorem collapseUndet_nondefault (ck : List PyStr) (mod : List PyStr)
    (rows : List BarcodeRow) :
    (∀ e ∈ rows, pyInStr e.project "default".data = true →
      e.project = "default".data) →
    (collapseUndet ck mod rows).filter (fun e => !(e.project == "default".data)) =
      rows.filter (fun e => !(e.project == "default".data)) := by
  induction mod, rows using collapseUndet.induct ck with
  | case1 x =>
    intro _
    rfl
  | case2 modified e hg hc =>
    intro hproj
    have hdef : e.project = "default".data :=
      hproj e (List.mem_singleton.mpr rfl) ((Bool.and_eq_true _ _).mp hg).2
    rw [show collapseUndet ck modified [e] = [] from by
      conv_lhs => unfold collapseUndet
      rw [if_pos hg, if_pos hc]]
    rw [List.filter_cons_of_neg (by simp [hdef])]
  | case3 modified e hg hc nxt rest' ih =>
    intro hproj
    have hdef : e.project = "default".data :=
      hproj e (List.mem_cons_self _ _) ((Bool.and_eq_true _ _).mp hg).2
    rw [show collapseUndet ck modified (e :: nxt :: rest') =
        nxt :: collapseUndet ck modified rest' from by
      conv_lhs => unfold collapseUndet
      rw [if_pos hg, if_pos hc]]
    rw [show (e :: nxt :: rest').filter (fun e => !(e.project == "default".data)) =
        (nxt :: rest').filter (fun e => !(e.project == "default".data)) from
      List.filter_cons_of_neg (by simp [hdef])]
    rw [List.filter_cons, List.filter_cons,
      ih (fun x hx => hproj x (by simp [hx]))]
  | case4 modified e rest hg hc ih =>
    intro hproj
    have hdef : e.project = "default".data :=
      hproj e (List.mem_cons_self _ _) ((Bool.and_eq_true _ _).mp hg).2
    rw [show collapseUndet ck modified (e :: rest) =
        { e with pfClusters := 0, yieldMb := 0 } ::
          collapseUndet ck (modified ++ [e.lane]) rest from by
      conv_lhs => unfold collapseUndet
      rw [if_pos hg, if_neg hc]]
    rw [List.filter_cons_of_neg (by simp [hdef]),
      List.filter_cons_of_neg (by simp [hdef])]
    exact ih (fun x hx => hproj x (by simp [hx]))
  | case5 modified e rest hg ih =>
    intro hproj
    rw [show collapseUndet ck modified (e :: rest) =
        e :: collapseUndet ck modified rest from by
      conv_lhs => unfold collapseUndet
      rw [if_neg hg]]
    rw [List.filter_cons, List.filter_cons,
      ih (fun x hx => hproj x (by simp [hx]))]

theorem specSums_collapse (L : PyStr) (ck : List PyStr) (rows : List BarcodeRow)
    (hproj : ∀ e ∈ rows, pyInStr e.project "default".data = true →
      e.project = "default".data) :
    specSampleClusterSum L (collapseUndet ck [] rows) = specSampleClusterSum L rows ∧
    specSampleYieldSum L (collapseUndet ck [] rows) = specSampleYieldSum L rows := by
  have h := collapseUndet_nondefault ck [] rows hproj
  have key : ∀ l : List BarcodeRow,
      l.filter (fun e => e.lane == L && !(e.project == "default".data)) =
      (l.filter (fun e => !(e.project == "default".data))).filter
        (fun e => e.lane == L) := by
    intro l
    rw [List.filter_filter]
  constructor
  · unfold specSampleClusterSum
    rw [key, key, h]
  · unfold specSampleYieldSum
    rw [key, key, h]

theorem numberReadsSummary_spec (lr : List (List LaneRow))
    (br : List (List BarcodeRow)) (ck : List PyStr)
    (hnd : ((mergeLaneReports lr).map (·.lane)).Nodup)
    (hproj : ∀ e ∈ mergeBarcodeReports br,
      pyInStr e.project "default".data = true → e.project = "default".data)
    (lrow : LaneRow) (hmem : lrow ∈ mergeLaneReports lr) :
    ∃ p : Bool, dictGet (numberReadsSummary lr br ck) lrow.lane =
      some ⟨lrow.pfClusters, lrow.yieldMb,
        specSampleClusterSum lrow.lane (mergeBarcodeReports br),
        specSampleYieldSum lrow.lane (mergeBarcodeReports br), p⟩ := by
  have h0 := laneFoldLookup (mergeLaneReports lr) [] lrow hnd hmem
  rcases sampleFold_false lrow.lane (collapseUndet ck [] (mergeBarcodeReports br)) _
    lrow.pfClusters lrow.yieldMb h0 with ⟨p, hp⟩
  obtain ⟨hc, hy⟩ := specSums_collapse lrow.lane ck (mergeBarcodeReports br) hproj
  rw [hc, hy] at hp
  exact ⟨p, hp⟩

theorem noindexFixRows_nil (ic : Nat × Nat) (l : List BarcodeRow) :
    noindexFixRows [] ic l = l := by
  unfold noindexFixRows
  rw [if_neg (by simp)]

theorem fixedRows_default_residual (lr : List (List LaneRow))
    (br : List (List BarcodeRow)) (ck : List PyStr) (ic : Nat × Nat)
    (row : BarcodeRow) (nr : LaneNR)
    (hmem : row ∈ fixedBarcodeRows lr br ck [] ic)
    (hdef : row.project = "default".data)
    (hck : ck.contains row.lane = true)
    (hnr : dictGet (numberReadsSummary lr br ck) row.lane = some nr) :
    row.pfClusters = nr.totalLaneCluster - nr.totalSampleCluster ∧
    row.yieldMb = nr.totalLaneYield - nr.totalSampleYield := by
  simp only [fixedBarcodeRows] at hmem
  rw [noindexFixRows_nil] at hmem
  unfold sortRows at hmem
  have hmem1 : row ∈ trimSuffixRows (applyUndet (numberReadsSummary lr br ck) ck
      (collapseUndet ck [] (mergeBarcodeReports br))) :=
    (List.mergeSort_perm _ _).mem_iff.mp hmem
  rcases List.mem_map.mp hmem1 with ⟨e1, he1, hg⟩
  dsimp only at hg
  have hp4 : row.project = e1.project ∧ row.lane = e1.lane ∧
      row.pfClusters = e1.pfClusters ∧ row.yieldMb = e1.yieldMb := by
    split at hg
    · rw [← hg]
      exact ⟨rfl, rfl, rfl, rfl⟩
    · rw [← hg]
      exact ⟨rfl, rfl, rfl, rfl⟩
  obtain ⟨hpr, hln, hpf, hyl⟩ := hp4
  rcases List.mem_map.mp he1 with ⟨e0, he0, hh⟩
  dsimp only at hh
  by_cases hcnd : (e0.project == "default".data && ck.contains e0.lane) = true
  · rw [if_pos hcnd] at hh
    cases hdg : dictGet (numberReadsSummary lr br ck) e0.lane with
    | none =>
      rw [hdg] at hh
      have hl0 : e0.lane = row.lane := by rw [hln, ← hh]
      rw [hl0, hnr] at hdg
      cases hdg
    | some nr2 =>
      rw [hdg] at hh
      have hl0 : e0.lane = row.lane := by rw [hln, ← hh]
      have hnr2 : nr2 = nr := by
        rw [hl0, hnr] at hdg
        exact (Option.some_inj.mp hdg).symm
      subst hnr2
      constructor
      · rw [hpf, ← hh]
        rfl
      · rw [hyl, ← hh]
        rfl
  · rw [if_neg hcnd] at hh
    have h1 : e0.project = row.project := by rw [hpr, ← hh]
    have h2 : e0.lane = row.lane := by rw [hln, ← hh]
    exact absurd (by
      rw [h1, h2, hdef]
      simp only [beq_self_eq_true, Bool.true_and]
      exact hck) hcnd

/-- Spec-side: the Undetermined block holds exactly the residual values —
clusters, and Mbases converted to bases by the source's `* 1000000`. -/
def residUndet (nr : LaneNR) (u : UndetInfo) : Prop :=
  u.numberReads = nr.totalLaneCluster - nr.totalSampleCluster ∧
  u.yieldBases = (nr.totalLaneYield - nr.totalSampleYield) * 1000000

/-- Spec-side: every `ConversionResults` entry of lane `L` carries a
residual Undetermined block. -/
def residConv (L : Nat) (nr : LaneNR) (l : List ConvResult) : Prop :=
  ∀ c ∈ l, c.laneNumber = L → ∀ u, c.undetermined = some u → residUndet nr u

/-- How many of the `Stats.json` files carry lane `L`. -/
def laneOcc (L : Nat) (files : List (PyStr × StatsJson)) : Nat :=
  files.countP (fun f => (f.2.conversionResults.map (·.laneNumber)).contains L)

theorem natContains_iff (l : List Nat) (x : Nat) : l.contains x = true ↔ x ∈ l :=
  List.elem_iff

theorem updateConv_map (cr : ConvResult) (fu : Option UndetInfo) :
    ∀ acc : List ConvResult,
      (updateConv cr fu acc).map (·.laneNumber) = acc.map (·.laneNumber) := by
  intro acc
  induction acc with
  | nil => rfl
  | cons e rest ih =>
    unfold updateConv
    split
    · rfl
    · simp only [List.map_cons, ih]

theorem countP_lane_updateConv (cr : ConvResult) (fu : Option UndetInfo) (L : Nat)
    (acc : List ConvResult) :
    (updateConv cr fu acc).countP (fun c => c.laneNumber == L) =
      acc.countP (fun c => c.laneNumber == L) := by
  have h := congrArg (List.countP (fun n => n == L)) (updateConv_map cr fu acc)
  rw [List.countP_map, List.countP_map] at h
  exact h

theorem updateConv_mem (cr : ConvResult) (fu : Option UndetInfo) :
    ∀ (acc : List ConvResult) (c : ConvResult), c ∈ updateConv cr fu acc →
      c ∈ acc ∨ (c.laneNumber = cr.laneNumber ∧ c.undetermined = fu) := by
  intro acc
  induction acc with
  | nil =>
    intro c h
    cases h
  | cons e rest ih =>
    intro c h
    unfold updateConv at h
    split at h
    · rename_i heq
      rcases List.mem_cons.mp h with rfl | hr
      · exact Or.inr ⟨heq, rfl⟩
      · exact Or.inl (List.mem_cons_of_mem _ hr)
    · rcases List.mem_cons.mp h with rfl | hr
      · exact Or.inl (List.mem_cons_self _ _)
      · rcases ih c hr with h1 | h2
        · exact Or.inl (List.mem_cons_of_mem _ h1)
        · exact Or.inr h2

theorem updateConv_unique (cr : ConvResult) (fu : Option UndetInfo) (L : Nat)
    (hcr : cr.laneNumber = L) :
    ∀ acc : List ConvResult, acc.countP (fun c => c.laneNumber == L) ≤ 1 →
      ∀ c ∈ updateConv cr fu acc, c.laneNumber = L → c.undetermined = fu := by
  intro acc
  induction acc with
  | nil =>
    intro _ c h
    cases h
  | cons e rest ih =>
    intro hcnt c hmem hl
    unfold updateConv at hmem
    split at hmem
    · rename_i heq
      rcases List.mem_cons.mp hmem with rfl | hr
      · rfl
      · exfalso
        have h1 : (e.laneNumber == L) = true := by simp [heq, hcr]
        have h2 : 0 < rest.countP (fun c => c.laneNumber == L) :=
          List.countP_pos_iff.mpr ⟨c, hr, by simp [hl]⟩
        rw [List.countP_cons, h1, if_pos rfl] at hcnt
        omega
    · rename_i hne
      rcases List.mem_cons.mp hmem with rfl | hr
      · exact absurd (hl.trans hcr.symm) hne
      · refine ih ?_ c hr hl
        rw [List.countP_cons] at hcnt
        omega

theorem countP_lane_le_one (l : List ConvResult) (L : Nat)
    (hnd : (l.map (·.laneNumber)).Nodup) :
    l.countP (fun c => c.laneNumber == L) ≤ 1 := by
  induction l with
  | nil => simp
  | cons e rest ih =>
    rw [List.map_cons, List.nodup_cons] at hnd
    rw [List.countP_cons]
    by_cases he : (e.laneNumber == L) = true
    · have hL : e.laneNumber = L := by simpa using he
      have h0 : rest.countP (fun c => c.laneNumber == L) = 0 := by
        rw [List.countP_eq_zero]
        intro c hc
        simp only [beq_iff_eq]
        intro hcl
        exact hnd.1 (List.mem_map.mpr ⟨c, hc, by rw [hcl, hL]⟩)
      rw [h0, he]
      simp
    · have hf : (e.laneNumber == L) = false := by simpa using he
      rw [hf]
      simpa using ih hnd.2

theorem countP_lane_zero (l : List ConvResult) (L : Nat)
    (h : L ∉ l.map (·.laneNumber)) :
    l.countP (fun c => c.laneNumber == L) = 0 := by
  rw [List.countP_eq_zero]
  intro c hc
  simp only [beq_iff_eq]
  intro hcl
  exact h (List.mem_map.mpr ⟨c, hc, hcl⟩)

theorem convStep_map_mem (ckeys : List PyStr) (summary : List (PyStr × LaneNR))
    (two : Bool) (lanesPresent : List Nat) (acc : List ConvResult)
    (cr : ConvResult) (l0 : Nat) (h : l0 ∈ acc.map (·.laneNumber)) :
    l0 ∈ (mergeConvEntry ckeys summary two lanesPresent acc cr).map (·.laneNumber) := by
  unfold mergeConvEntry
  split
  · rw [updateConv_map]
    exact h
  · rw [List.map_append]
    exact List.mem_append_left _ h

theorem convFold_mapSup (ckeys : List PyStr) (summary : List (PyStr × LaneNR))
    (two : Bool) (lanesPresent : List Nat) (l0 : Nat) (crs : List ConvResult) :
    ∀ acc : List ConvResult, l0 ∈ acc.map (·.laneNumber) →
      l0 ∈ ((crs.foldl (mergeConvEntry ckeys summary two lanesPresent) acc).map
        (·.laneNumber)) := by
  induction crs with
  | nil =>
    intro acc h
    exact h
  | cons cr rest ih =>
    intro acc h
    simp only [List.foldl_cons]
    exact ih _ (convStep_map_mem ckeys summary two lanesPresent acc cr l0 h)

theorem convFold_addsLane (ckeys : List PyStr) (summary : List (PyStr × LaneNR))
    (two : Bool) (lanesPresent : List Nat) (L : Nat) (crs : List ConvResult) :
    ∀ acc : List ConvResult, (∀ l ∈ lanesPresent, l ∈ acc.map (·.laneNumber)) →
      (∃ cr ∈ crs, cr.laneNumber = L) →
      L ∈ ((crs.foldl (mergeConvEntry ckeys summary two lanesPresent) acc).map
        (·.laneNumber)) := by
  induction crs with
  | nil =>
    intro acc _ hex
    rcases hex with ⟨cr, h, _⟩
    cases h
  | cons cr rest ih =>
    intro acc hsub hex
    simp only [List.foldl_cons]
    have hsub' : ∀ l ∈ lanesPresent,
        l ∈ (mergeConvEntry ckeys summary two lanesPresent acc cr).map (·.laneNumber) :=
      fun l hlp => convStep_map_mem ckeys summary two lanesPresent acc cr l (hsub l hlp)
    rcases hex with ⟨cr', hcr', hL⟩
    rcases List.mem_cons.mp hcr' with rfl | hr
    · have hstep : L ∈ (mergeConvEntry ckeys summary two lanesPresent acc cr').map
          (·.laneNumber) := by
        unfold mergeConvEntry
        split
        · rename_i hcond
          rw [updateConv_map]
          exact hsub _ (hL ▸ hcond.1)
        · rw [List.map_append]
          apply List.mem_append_right
          simp [hL]
      exact convFold_mapSup ckeys summary two lanesPresent L rest _ hstep
    · exact ih _ hsub' ⟨cr', hr, hL⟩

theorem convFold_count (ckeys : List PyStr) (summary : List (PyStr × LaneNR))
    (two : Bool) (lanesPresent : List Nat) (L : Nat)
    (hckL : natToStr L ∈ ckeys) (crs : List ConvResult) :
    ∀ acc : List ConvResult, (crs.map (·.laneNumber)).Nodup →
      (L ∈ crs.map (·.laneNumber) → L ∉ lanesPresent → L ∉ acc.map (·.laneNumber)) →
      acc.countP (fun c => c.laneNumber == L) ≤ 1 →
      (crs.foldl (mergeConvEntry ckeys summary two lanesPresent) acc).countP
        (fun c => c.laneNumber == L) ≤ 1 := by
  induction crs with
  | nil =>
    intro acc _ _ hcnt
    exact hcnt
  | cons cr rest ih =>
    intro acc hnd hfresh hcnt
    rw [List.map_cons, List.nodup_cons] at hnd
    simp only [List.foldl_cons]
    by_cases hL : cr.laneNumber = L
    · have hrest : L ∉ rest.map (·.laneNumber) := by
        rw [← hL]
        exact hnd.1
      refine ih _ hnd.2 (fun hmem _ => absurd hmem hrest) ?_
      unfold mergeConvEntry
      split
      · rw [countP_lane_updateConv]
        exact hcnt
      · rename_i hcond
        have hnp : L ∉ lanesPresent := by
          intro hin
          exact hcond ⟨hL ▸ hin, hL ▸ hckL⟩
        have h0 : acc.countP (fun c => c.laneNumber == L) = 0 :=
          countP_lane_zero acc L
            (hfresh (by rw [List.map_cons]; exact List.mem_cons.mpr (Or.inl hL.symm)) hnp)
        rw [List.countP_append, h0]
        simp [hL]
    · have hfresh' : L ∈ rest.map (·.laneNumber) → L ∉ lanesPresent →
          L ∉ (mergeConvEntry ckeys summary two lanesPresent acc cr).map (·.laneNumber) := by
        intro h1 h2
        have h3 := hfresh (by rw [List.map_cons]; exact List.mem_cons_of_mem _ h1) h2
        unfold mergeConvEntry
        split
        · rw [updateConv_map]
          exact h3
        · rw [List.map_append]
          intro hmem
          rcases List.mem_append.mp hmem with h4 | h4
          · exact h3 h4
          · rw [List.map_cons, List.map_nil] at h4
            exact hL ((List.mem_singleton.mp h4).symm)
      refine ih _ hnd.2 hfresh' ?_
      unfold mergeConvEntry
      split
      · rw [countP_lane_updateConv]
        exact hcnt
      · rw [List.countP_append]
        have h1 : ([cr].countP (fun c => c.laneNumber == L)) = 0 := by
          simp [hL]
        rw [h1]
        simpa using hcnt

theorem convStep_good (ckeys : List PyStr) (summary : List (PyStr × LaneNR))
    (two : Bool) (lanesPresent : List Nat) (L : Nat) (nr : LaneNR)
    (hnr : dictGet summary (natToStr L) = some nr)
    (hckL : natToStr L ∈ ckeys)
    (acc : List ConvResult) (cr : ConvResult)
    (hGood : residConv L nr acc)
    (hpres : cr.laneNumber = L → L ∈ lanesPresent) :
    residConv L nr (mergeConvEntry ckeys summary two lanesPresent acc cr) := by
  intro c hc hcl u hu
  unfold mergeConvEntry at hc
  split at hc
  · rcases updateConv_mem _ _ _ c hc with hin | ⟨hlan, hund⟩
    · exact hGood c hin hcl u hu
    · have hcrL : cr.laneNumber = L := by
        rw [← hlan]
        exact hcl
      rw [hcrL, hnr] at hund
      rw [hund] at hu
      rcases Option.map_eq_some'.mp hu with ⟨u0, _, hfix⟩
      rw [← hfix]
      exact ⟨rfl, rfl⟩
  · rcases List.mem_append.mp hc with hin | hin
    · exact hGood c hin hcl u hu
    · rename_i hcond
      rw [List.mem_singleton] at hin
      subst hin
      exact absurd ⟨by rw [hcl]; exact hpres hcl, by rw [hcl]; exact hckL⟩ hcond

theorem convFold_goodPreserve (ckeys : List PyStr) (summary : List (PyStr × LaneNR))
    (two : Bool) (lanesPresent : List Nat) (L : Nat) (nr : LaneNR)
    (hnr : dictGet summary (natToStr L) = some nr)
    (hckL : natToStr L ∈ ckeys) (crs : List ConvResult) :
    ∀ acc : List ConvResult, residConv L nr acc →
      (L ∈ crs.map (·.laneNumber) → L ∈ lanesPresent) →
      residConv L nr (crs.foldl (mergeConvEntry ckeys summary two lanesPresent) acc) := by
  induction crs with
  | nil =>
    intro acc hGood _
    exact hGood
  | cons cr rest ih =>
    intro acc hGood hpres
    simp only [List.foldl_cons]
    refine ih _ (convStep_good ckeys summary two lanesPresent L nr hnr hckL acc cr hGood
      fun hcrL => hpres (List.mem_map.mpr ⟨cr, List.mem_cons_self _ _, hcrL⟩)) ?_
    intro h
    exact hpres (by rw [List.map_cons]; exact List.mem_cons_of_mem _ h)

theorem convFold_goodEstablish (ckeys : List PyStr) (summary : List (PyStr × LaneNR))
    (two : Bool) (lanesPresent : List Nat) (L : Nat) (nr : LaneNR)
    (hnr : dictGet summary (natToStr L) = some nr)
    (hckL : natToStr L ∈ ckeys) (crs : List ConvResult) :
    ∀ acc : List ConvResult, (crs.map (·.laneNumber)).Nodup →
      L ∈ crs.map (·.laneNumber) → L ∈ lanesPresent →
      acc.countP (fun c => c.laneNumber == L) ≤ 1 →
      residConv L nr (crs.foldl (mergeConvEntry ckeys summary two lanesPresent) acc) := by
  induction crs with
  | nil =>
    intro acc _ hmem
    simp at hmem
  | cons cr rest ih =>
    intro acc hnd hmem hlp hcnt
    rw [List.map_cons] at hmem hnd
    have hnd' := List.nodup_cons.mp hnd
    simp only [List.foldl_cons]
    rcases List.mem_cons.mp hmem with hL | hmem'
    · have hcrL : cr.laneNumber = L := hL.symm
      have hstepGood : residConv L nr
          (mergeConvEntry ckeys summary two lanesPresent acc cr) := by
        unfold mergeConvEntry
        rw [if_pos ⟨by rw [hcrL]; exact hlp, by rw [hcrL]; exact hckL⟩]
        intro c hc hcl u hu
        have hset := updateConv_unique cr _ L hcrL acc hcnt c hc hcl
        rw [hset] at hu
        rw [hcrL, hnr] at hu
        rcases Option.map_eq_some'.mp hu with ⟨u0, _, hfix⟩
        rw [← hfix]
        exact ⟨rfl, rfl⟩
      exact convFold_goodPreserve ckeys summary two lanesPresent L nr hnr hckL rest _
        hstepGood (fun _ => hlp)
    · have hcrne : cr.laneNumber ≠ L := fun h2 => hnd'.1 (by rw [h2]; exact hmem')
      have hcnt' : (mergeConvEntry ckeys summary two lanesPresent acc cr).countP
          (fun c => c.laneNumber == L) ≤ 1 := by
        unfold mergeConvEntry
        split
        · rw [countP_lane_updateConv]
          exact hcnt
        · rw [List.countP_append]
          have h1 : ([cr].countP (fun c => c.laneNumber == L)) = 0 := by
            simp [hcrne]
          rw [h1]
          simpa using hcnt
      exact ih _ hnd'.2 hmem' hlp hcnt'

theorem statsFold_residual (sheets : List SubSheet) (simpleL : List (PyStr × PyStr))
    (complexSel : List (PyStr × (PyStr × (Nat × Nat))))
    (summary : List (PyStr × LaneNR)) (two : Bool) (L : Nat) (nr : LaneNR)
    (hckL : natToStr L ∈ complexSel.map Prod.fst)
    (hnr : dictGet summary (natToStr L) = some nr) :
    ∀ (files : List (PyStr × StatsJson)) (s0 st1 : StatsAcc),
      files.foldl (fun acc f =>
        some (processStatsFile sheets simpleL complexSel summary two acc f)) (some s0) =
        some st1 →
      (∀ f ∈ files, (f.2.conversionResults.map (·.laneNumber)).Nodup) →
      s0.conversionResults.countP (fun c => c.laneNumber == L) ≤ 1 →
      (st1.conversionResults.countP (fun c => c.laneNumber == L) ≤ 1) ∧
      (L ∈ s0.conversionResults.map (·.laneNumber) →
        L ∈ st1.conversionResults.map (·.laneNumber)) ∧
      (residConv L nr s0.conversionResults →
        L ∈ s0.conversionResults.map (·.laneNumber) →
        residConv L nr st1.conversionResults) ∧
      (L ∈ s0.conversionResults.map (·.laneNumber) → 1 ≤ laneOcc L files →
        residConv L nr st1.conversionResults) ∧
      (2 ≤ laneOcc L files → residConv L nr st1.conversionResults) := by
  intro files
  induction files with
  | nil =>
    intro s0 st1 h _ hcnt
    simp only [List.foldl_nil, Option.some_inj] at h
    subst h
    refine ⟨hcnt, id, fun hg _ => hg, ?_, ?_⟩
    · intro _ hocc
      simp [laneOcc] at hocc
    · intro hocc
      simp [laneOcc] at hocc
  | cons f rest ih =>
    intro s0 st1 h hnodup hcnt
    simp only [List.foldl_cons] at h
    have hfn := hnodup f (List.mem_cons_self f rest)
    have hrestnd : ∀ g ∈ rest, (g.2.conversionResults.map (·.laneNumber)).Nodup :=
      fun g hg => hnodup g (List.mem_cons_of_mem f hg)
    have hconv : (processStatsFile sheets simpleL complexSel summary two
        (some s0) f).conversionResults =
        f.2.conversionResults.foldl
          (mergeConvEntry (complexSel.map Prod.fst) summary two
            (s0.conversionResults.map (·.laneNumber))) s0.conversionResults := rfl
    have hcnt1 : (processStatsFile sheets simpleL complexSel summary two
        (some s0) f).conversionResults.countP (fun c => c.laneNumber == L) ≤ 1 := by
      rw [hconv]
      exact convFold_count _ summary two _ L hckL f.2.conversionResults
        s0.conversionResults hfn (fun _ hnp => hnp) hcnt
    obtain ⟨ha, hb, hc, hd, he⟩ := ih _ st1 h hrestnd hcnt1
    have hup : L ∈ s0.conversionResults.map (·.laneNumber) →
        L ∈ (processStatsFile sheets simpleL complexSel summary two
          (some s0) f).conversionResults.map (·.laneNumber) := by
      intro hm
      rw [hconv]
      exact convFold_mapSup _ summary two _ L f.2.conversionResults _ hm
    refine ⟨ha, fun hm => hb (hup hm), ?_, ?_, ?_⟩
    · intro hg hm
      refine hc ?_ (hup hm)
      rw [hconv]
      exact convFold_goodPreserve _ summary two _ L nr hnr hckL
        f.2.conversionResults _ hg (fun _ => hm)
    · intro hm hocc
      by_cases hf : ((f.2.conversionResults.map (·.laneNumber)).contains L) = true
      · have hmemf : L ∈ f.2.conversionResults.map (·.laneNumber) :=
          (natContains_iff _ _).mp hf
        have hgood1 : residConv L nr (processStatsFile sheets simpleL complexSel
            summary two (some s0) f).conversionResults := by
          rw [hconv]
          exact convFold_goodEstablish _ summary two _ L nr hnr hckL
            f.2.conversionResults _ hfn hmemf hm hcnt
        exact hc hgood1 (hup hm)
      · have hffalse : ((f.2.conversionResults.map (·.laneNumber)).contains L) = false := by
          simpa using hf
        have hocc' : 1 ≤ laneOcc L rest := by
          simp only [laneOcc, List.countP_cons, hffalse, Bool.false_eq_true,
            if_false, Nat.add_zero] at hocc ⊢
          exact hocc
        exact hd (hup hm) hocc'
    · intro hocc
      by_cases hf : ((f.2.conversionResults.map (·.laneNumber)).contains L) = true
      · have hmemf : L ∈ f.2.conversionResults.map (·.laneNumber) :=
          (natContains_iff _ _).mp hf
        have hpres1 : L ∈ (processStatsFile sheets simpleL complexSel summary two
            (some s0) f).conversionResults.map (·.laneNumber) := by
          rw [hconv]
          rcases List.mem_map.mp hmemf with ⟨cr, hcr, hl⟩
          exact convFold_addsLane _ summary two _ L f.2.conversionResults _
            (fun l hl' => hl') ⟨cr, hcr, hl⟩
        have hocc' : 1 ≤ laneOcc L rest := by
          simp only [laneOcc, List.countP_cons, hf, eq_self_iff_true, if_true] at hocc ⊢
          omega
        exact hd hpres1 hocc'
      · have hffalse : ((f.2.conversionResults.map (·.laneNumber)).contains L) = false := by
          simpa using hf
        have hocc' : 2 ≤ laneOcc L rest := by
          simp only [laneOcc, List.countP_cons, hffalse, Bool.false_eq_true,
            if_false, Nat.add_zero] at hocc ⊢
          exact hocc
        exact he hocc'

theorem mergeStats_residual (sheets : List SubSheet) (simpleL : List (PyStr × PyStr))
    (complexSel : List (PyStr × (PyStr × (Nat × Nat))))
    (summary : List (PyStr × LaneNR)) (two : Bool) (ic : Nat × Nat)
    (files : List (PyStr × StatsJson)) (st : StatsAcc) (L : Nat) (nr : LaneNR)
    (cr : ConvResult) (u : UndetInfo)
    (hmerge : mergeStats sheets simpleL complexSel summary two [] ic files = some st)
    (hckL : natToStr L ∈ complexSel.map Prod.fst)
    (hnodup : ∀ f ∈ files, (f.2.conversionResults.map (·.laneNumber)).Nodup)
    (hocc : 2 ≤ laneOcc L files)
    (hnr : dictGet summary (natToStr L) = some nr)
    (hcr : cr ∈ st.conversionResults) (hcl : cr.laneNumber = L)
    (hu : cr.undetermined = some u) :
    u.numberReads = nr.totalLaneCluster - nr.totalSampleCluster ∧
    u.yieldBases = (nr.totalLaneYield - nr.totalSampleYield) * 1000000 := by
  rcases mergeStats_split sheets simpleL complexSel summary two [] ic files st
    hmerge with ⟨st1, hf, hfix⟩
  have hst : st = st1 := by
    rw [hfix]
    unfold noindexFixStats
    rw [if_neg (by simp)]
  rw [hst] at hcr
  cases files with
  | nil => simp [laneOcc] at hocc
  | cons f rest =>
    simp only [List.foldl_cons] at hf
    have hs1conv : (processStatsFile sheets simpleL complexSel summary two
        none f).conversionResults = f.2.conversionResults := rfl
    have hfn := hnodup f (List.mem_cons_self f rest)
    have hrestnd : ∀ g ∈ rest, (g.2.conversionResults.map (·.laneNumber)).Nodup :=
      fun g hg => hnodup g (List.mem_cons_of_mem f hg)
    have hcnt1 : (processStatsFile sheets simpleL complexSel summary two
        none f).conversionResults.countP (fun c => c.laneNumber == L) ≤ 1 := by
      rw [hs1conv]
      exact countP_lane_le_one _ _ hfn
    obtain ⟨_, _, _, hd, he⟩ := statsFold_residual sheets simpleL complexSel summary
      two L nr hckL hnr rest _ st1 hf hrestnd hcnt1
    by_cases hfL : ((f.2.conversionResults.map (·.laneNumber)).contains L) = true
    · have hpres : L ∈ (processStatsFile sheets simpleL complexSel summary two
          none f).conversionResults.map (·.laneNumber) := by
        rw [hs1conv]
        exact (natContains_iff _ _).mp hfL
      have hocc' : 1 ≤ laneOcc L rest := by
        simp only [laneOcc, List.countP_cons, hfL, eq_self_iff_true, if_true] at hocc ⊢
        omega
      exact hd hpres hocc' cr hcr hcl u hu
    · have hffalse : ((f.2.conversionResults.map (·.laneNumber)).contains L) = false := by
        simpa using hfL
      have hocc' : 2 ≤ laneOcc L rest := by
        simp only [laneOcc, List.countP_cons, hffalse, Bool.false_eq_true,
          if_false, Nat.add_zero] at hocc ⊢
        exact hocc
      exact he hocc' cr hcr hcl u hu

/-- C1 (amended): after aggregating a run with multiple
sub-demultiplexings (no NoIndex fix-up): (1) in the merged
`laneBarcode.html` every default-project row of a complex lane carries
exactly the residual `total_lane − total_sample` cluster and yield
(Mbases) numbers of its lane's `NumberReads_Summary` entry; (2) that
entry holds the lane totals of the (duplicate-free) merged lane report
and the sums over the real sample rows (`Project ≠ "default"`) of the
merged laneBarcode report, so `lane_total = Σ samples + undetermined`
holds exactly in the HTML report; (3) in the merged `Stats.json` the
Undetermined block of a complex lane covered by two or more files has
`NumberReads` equal to the residual cluster count, but `Yield` equal to
the residual yield in Mbases MULTIPLIED BY 1,000,000 (converted to
bases) — not the residual taken from the lane report itself, as the
claim literally states. -/
theorem aggregated_undetermined_residual :
    (∀ (lr : List (List LaneRow)) (br : List (List BarcodeRow)) (ck : List PyStr)
        (ic : Nat × Nat) (row : BarcodeRow) (nr : LaneNR),
      row ∈ fixedBarcodeRows lr br ck [] ic →
      row.project = "default".data →
      ck.contains row.lane = true →
      dictGet (numberReadsSummary lr br ck) row.lane = some nr →
      row.pfClusters = nr.totalLaneCluster - nr.totalSampleCluster ∧
      row.yieldMb = nr.totalLaneYield - nr.totalSampleYield) ∧
    (∀ (lr : List (List LaneRow)) (br : List (List BarcodeRow)) (ck : List PyStr)
        (lrow : LaneRow),
      ((mergeLaneReports lr).map (·.lane)).Nodup →
      (∀ e ∈ mergeBarcodeReports br,
        pyInStr e.project "default".data = true → e.project = "default".data) →
      lrow ∈ mergeLaneReports lr →
      ∃ p : Bool, dictGet (numberReadsSummary lr br ck) lrow.lane =
        some ⟨lrow.pfClusters, lrow.yieldMb,
          specSampleClusterSum lrow.lane (mergeBarcodeReports br),
          specSampleYieldSum lrow.lane (mergeBarcodeReports br), p⟩) ∧
    (∀ (sheets : List SubSheet) (simpleL : List (PyStr × PyStr))
        (complexSel : List (PyStr × (PyStr × (Nat × Nat))))
        (summary : List (PyStr × LaneNR)) (two : Bool) (ic : Nat × Nat)
        (files : List (PyStr × StatsJson)) (st : StatsAcc) (L : Nat) (nr : LaneNR)
        (cr : ConvResult) (u : UndetInfo),
      mergeStats sheets simpleL complexSel summary two [] ic files = some st →
      natToStr L ∈ complexSel.map Prod.fst →
      (∀ f ∈ files, (f.2.conversionResults.map (·.laneNumber)).Nodup) →
      2 ≤ laneOcc L files →
      dictGet summary (natToStr L) = some nr →
      cr ∈ st.conversionResults → cr.laneNumber = L →
      cr.undetermined = some u →
      u.numberReads = nr.totalLaneCluster - nr.totalSampleCluster ∧
      u.yieldBases = (nr.totalLaneYield - nr.totalSampleYield) * 1000000) :=
  ⟨fun lr br ck ic row nr h1 h2 h3 h4 =>
      fixedRows_default_residual lr br ck ic row nr h1 h2 h3 h4,
    fun lr br ck lrow h1 h2 h3 =>
      numberReadsSummary_spec lr br ck h1 h2 lrow h3,
    fun sheets simpleL complexSel summary two ic files st L nr cr u
        h1 h2 h3 h4 h5 h6 h7 h8 =>
      mergeStats_residual sheets simpleL complexSel summary two ic files st L nr
        cr u h1 h2 h3 h4 h5 h6 h7 h8⟩

/-- Witness for `aggregated_undetermined_residual`: in the concrete
two-file scenario the merged Undetermined block of lane 1 holds the
residual 15 clusters and 8 Mbases × 1,000,000 bases. -/
theorem aggregated_undetermined_residual_witness :
    (⟨15, 8000000, [⟨0, 0, 0, 0⟩]⟩ : UndetInfo).numberReads =
      (⟨100, 50, 85, 42, true⟩ : LaneNR).totalLaneCluster -
        (⟨100, 50, 85, 42, true⟩ : LaneNR).totalSampleCluster ∧
    (⟨15, 8000000, [⟨0, 0, 0, 0⟩]⟩ : UndetInfo).yieldBases =
      ((⟨100, 50, 85, 42, true⟩ : LaneNR).totalLaneYield -
        (⟨100, 50, 85, 42, true⟩ : LaneNR).totalSampleYield) * 1000000 :=
  aggregated_undetermined_residual.2.2 cexSheets [] cexSel
    (numberReadsSummary cexLaneReports cexBarcodeReports cexComplexKeys) false
    (8, 0) cexFiles cexStats 1 ⟨100, 50, 85, 42, true⟩
    ⟨1, [⟨"s1".data, 60⟩, ⟨"s2".data, 25⟩], some ⟨15, 8000000, [⟨0, 0, 0, 0⟩]⟩⟩
    ⟨15, 8000000, [⟨0, 0, 0, 0⟩]⟩
    rfl (by decide) (by decide) (by decide) rfl (by decide) rfl rfl

/-- C1 fails as literally stated for `Stats.json` yields: the merged
lane report gives lane 1 a total yield of 50 Mbases, the real sample
rows sum to 42, so the residual is 8 — but the merged `Stats.json`
stores `Yield = 8000000` (bases), and `8000000 ≠ 8`. The cluster
residual (15) and the HTML yield residual (8) do hold. -/
theorem aggregated_undetermined_residual_counterexample :
    mergeStats cexSheets [] cexSel
      (numberReadsSummary cexLaneReports cexBarcodeReports cexComplexKeys) false []
      (8, 0) cexFiles = some cexStats ∧
    dictGet (numberReadsSummary cexLaneReports cexBarcodeReports cexComplexKeys)
      "1".data = some ⟨100, 50, 85, 42, true⟩ ∧
    cexStats.conversionResults = [⟨1, [⟨"s1".data, 60⟩, ⟨"s2".data, 25⟩],
      some ⟨15, 8000000, [⟨0, 0, 0, 0⟩]⟩⟩] ∧
    (50 : Int) - 42 = 8 ∧ (8000000 : Int) ≠ 8 :=
  ⟨rfl, rfl, rfl, rfl, by decide⟩

end TACA
